import Mathlib

/-!
A verification development for the offify playlist migrator
(src/offify.py).  The Python source is shallowly embedded:

* floats are modelled as exact rationals (`ℚ`); the constants 0.5, 0.15
  and 0.6 are decimal literals, exact in `ℚ`;
* Python dictionaries whose keys may be missing become `Option` fields;
* exceptions become explicit `Except` values; the `try/except` blocks of
  the source become total functions that turn the error into the value
  the handler returns;
* the network collaborators (Spotify, YouTube Music) become an explicit
  environment record of pure functions, and the observable destination
  writes (create_playlist, add_playlist_items) and store saves become an
  explicit event trace.
-/

namespace Offify

/-!
## The similarity scorer

`PlaylistMigrator._similarity_ratio(a, b)` is
`SequenceMatcher(None, a.lower(), b.lower()).ratio()` (line 61-63 of
src/offify.py).  We model CPython difflib's `SequenceMatcher` with
`isjunk = None` (so the junk set `bjunk` is empty and the two
junk-extension loops of `find_longest_match` never fire; they are
omitted) and the default `autojunk = True` (elements occurring more than
`n // 100 + 1` times in a sequence `b` with `n >= 200` are dropped from
the index `b2j`).
-/

/-- All positions of `ch` in `b`, in increasing order: difflib's `b2j`
before the autojunk purge. -/
def b2jAll (b : List Char) (ch : Char) : List Nat :=
  (List.range b.length).filter (fun j => decide (b.get? j = some ch))

/-- difflib's autojunk heuristic: with `n = len(b) >= 200`, an element
whose index list is longer than `n // 100 + 1` is "popular" and is
removed from `b2j`. -/
def isPopular (b : List Char) (ch : Char) : Bool :=
  decide (200 ≤ b.length) && decide (b.length / 100 + 1 < (b2jAll b ch).length)

/-- difflib's `b2j` after the autojunk purge. -/
def b2j (b : List Char) (ch : Char) : List Nat :=
  if isPopular b ch then [] else b2jAll b ch

/-- The running best match of `find_longest_match`: `besti, bestj,
bestsize`. -/
structure FlmBest where
  besti : Nat
  bestj : Nat
  bestsize : Nat
deriving Repr, DecidableEq

/-- `j2len.get(j - 1, 0) + 1`: dictionaries with default 0 are modelled
as functions `Nat → Nat`; the key `j - 1` at `j = 0` is Python's `-1`,
absent from a dictionary of list indices, hence the default 0. -/
def kOf (j2len : Nat → Nat) : Nat → Nat
  | 0 => 0 + 1
  | Nat.succ j1 => j2len j1 + 1

/-- The inner loop of `find_longest_match`'s dynamic program, over the
index list `js` of the current row `i` (already restricted to
`blo ≤ j < bhi`; difflib skips `j < blo` with `continue` and leaves the
sorted list at the first `j ≥ bhi` with `break`, which on a sorted list
is this restriction).  `j2len` is the previous row's dictionary, `nj`
the new row's dictionary being built. -/
def flmRowGo (j2len : Nat → Nat) (i : Nat) :
    List Nat → FlmBest → (Nat → Nat) → FlmBest × (Nat → Nat)
  | [], best, nj => (best, nj)
  | j :: js, best, nj =>
    let k := kOf j2len j
    let nj1 := fun x => if x = j then k else nj x
    if best.bestsize < k then flmRowGo j2len i js ⟨i + 1 - k, j + 1 - k, k⟩ nj1
    else flmRowGo j2len i js best nj1

/-- The outer loop of `find_longest_match`'s dynamic program, over the
rows `alo, ..., ahi - 1` (given as an explicit list).  Each row starts a
fresh `newj2len` dictionary (the all-0 function). -/
def flmRows (a b : List Char) (blo bhi : Nat) :
    List Nat → FlmBest → (Nat → Nat) → FlmBest
  | [], best, _ => best
  | i :: rest, best, j2len =>
    let js := (b2j b (a.getD i default)).filter
      (fun j => decide (blo ≤ j) && decide (j < bhi))
    let p := flmRowGo j2len i js best (fun _ => 0)
    flmRows a b blo bhi rest p.1 p.2

/-- The first (non-junk, and with `isjunk = None` the only effective)
backward extension loop of `find_longest_match`:
`while besti > alo and bestj > blo and a[besti-1] == b[bestj-1]`.
Structural recursion on `besti`. -/
def extendBack (a b : List Char) (alo blo : Nat) :
    Nat → Nat → Nat → FlmBest
  | 0, bestj, bestsize => ⟨0, bestj, bestsize⟩
  | Nat.succ bi, bestj, bestsize =>
    if alo ≤ bi ∧ blo < bestj ∧ a.getD bi default = b.getD (bestj - 1) default then
      extendBack a b alo blo bi (bestj - 1) (bestsize + 1)
    else ⟨bi + 1, bestj, bestsize⟩

/-- The forward extension loop of `find_longest_match`:
`while besti+bestsize < ahi and bestj+bestsize < bhi and
a[besti+bestsize] == b[bestj+bestsize]`.  The first conjunct is carried
as the structurally decreasing counter `gap = ahi - (besti + bestsize)`,
kept in step with `bestsize`. -/
def extendFwdGo (a b : List Char) (bhi besti bestj : Nat) :
    Nat → Nat → Nat
  | 0, bestsize => bestsize
  | Nat.succ gap, bestsize =>
    if bestj + bestsize < bhi ∧
        a.getD (besti + bestsize) default = b.getD (bestj + bestsize) default then
      extendFwdGo a b bhi besti bestj gap (bestsize + 1)
    else bestsize

/-- difflib's `find_longest_match(alo, ahi, blo, bhi)` with
`isjunk = None`: the dynamic program, then the backward and forward
extension loops (the two junk-extension loops never fire since `bjunk`
is empty). -/
def find_longest_match (a b : List Char) (alo ahi blo bhi : Nat) : FlmBest :=
  let dp := flmRows a b blo bhi (List.range' alo (ahi - alo)) ⟨alo, blo, 0⟩ (fun _ => 0)
  let bk := extendBack a b alo blo dp.besti dp.bestj dp.bestsize
  ⟨bk.besti, bk.bestj,
    extendFwdGo a b bhi bk.besti bk.bestj (ahi - (bk.besti + bk.bestsize)) bk.bestsize⟩

/-- The total size of the matching blocks of `get_matching_blocks`
(the queue recursion around `find_longest_match`; sorting and merging
adjacent blocks preserve the size total, and `ratio` only uses the
total).  The recursion consumes the explicit counter `fuel`; each
recursive call strictly shrinks `(ahi - alo) + (bhi - blo)` (lemma
`matchingTotalGo_fuel`), so the fuel `length a + length b + 1` supplied
by `matchingTotal` is never exhausted. -/
def matchingTotalGo (a b : List Char) : Nat → Nat → Nat → Nat → Nat → Nat
  | 0, _, _, _, _ => 0
  | Nat.succ fuel, alo, ahi, blo, bhi =>
    let m := find_longest_match a b alo ahi blo bhi
    if 0 < m.bestsize then
      matchingTotalGo a b fuel alo m.besti blo m.bestj + m.bestsize +
        matchingTotalGo a b fuel (m.besti + m.bestsize) ahi (m.bestj + m.bestsize) bhi
    else 0

/-- Sum of the sizes of all matching blocks of the two sequences. -/
def matchingTotal (a b : List Char) : Nat :=
  matchingTotalGo a b (a.length + b.length + 1) 0 a.length 0 b.length

/-- difflib's `ratio()`: `2.0 * matches / (len(a) + len(b))`, and 1.0
when both sequences are empty (`_calculate_ratio`). -/
def ratio (a b : List Char) : ℚ :=
  if a.length + b.length = 0 then 1
  else 2 * (matchingTotal a b : ℚ) / ((a.length : ℚ) + (b.length : ℚ))

/-- Python's `str.lower()`, character by character. -/
def lowerChars (s : String) : List Char := s.data.map Char.toLower

/-- `PlaylistMigrator._similarity_ratio` (src/offify.py lines 61-63):
`SequenceMatcher(None, a.lower(), b.lower()).ratio()`. -/
def similarity_ratio (a b : String) : ℚ := ratio (lowerChars a) (lowerChars b)

/-- The chain lengths of `find_longest_match`'s dynamic program on a
sequence compared against itself over the full symmetric range
(`alo = blo = 0`): `runLen c r j` is the value the row-`r` dictionary
holds at key `j` (0 when absent).  Used only in proofs. -/
def runLen (c : List Char) : Nat → Nat → Nat
  | 0, j => if j ∈ b2j c (c.getD 0 default) then 1 else 0
  | Nat.succ r1, 0 => if 0 ∈ b2j c (c.getD (r1 + 1) default) then 1 else 0
  | Nat.succ r1, Nat.succ j1 =>
    if (j1 + 1) ∈ b2j c (c.getD (r1 + 1) default) then runLen c r1 j1 + 1 else 0

/-- The dictionary passed into row `i` of the dynamic program on `c`
against itself: empty before row 0, row `i - 1`'s dictionary after.
Used only in proofs. -/
def runLenP (c : List Char) : Nat → Nat → Nat
  | 0, _ => 0
  | Nat.succ r1, j => runLen c r1 j

/-- `f` is a match inside the rectangle `[alo, ahi) × [blo, bhi)`.
Used only in proofs. -/
def FlmBounds (alo ahi blo bhi : Nat) (f : FlmBest) : Prop :=
  alo ≤ f.besti ∧ f.besti + f.bestsize ≤ ahi ∧
    blo ≤ f.bestj ∧ f.bestj + f.bestsize ≤ bhi

/-!
## The match selector

`PlaylistMigrator.search_youtube_music(track)` (src/offify.py lines
87-139).  The candidate list returned by `self.ytmusic.search` is an
input.  A Python search-result dictionary may lack keys, so `title`,
`artists` and `duration_seconds` are `Option` fields; `videoId` is the
destination media identifier, always present on the candidates this
model considers.
-/

/-- A source-side track, as built by `get_spotify_playlist` (lines
76-81): title, first artist name, source id, duration in ms. -/
structure Track where
  title : String
  artist : String
  id : String
  duration_ms : Nat
deriving Repr, DecidableEq

/-- One element of a candidate's `artists` list: a dictionary with a
`name` key. -/
structure Artist where
  name : String
deriving Repr, DecidableEq

/-- A destination-side search result. -/
structure Candidate where
  title : Option String
  artists : Option (List Artist)
  duration_seconds : Option Nat
  videoId : String
deriving Repr, DecidableEq

/-- Why the selector rejected.  The source returns `None` on all three
paths; the reasons label the distinct code paths, following the spec's
taxonomy: `no_results` for the empty result list (lines 93-95),
`below_threshold` for the post-loop `return None` (lines 133-135),
`invalid_duration` for the `ZeroDivisionError` of `duration_diff` at
`track_duration == 0`, and `search_error` for any other exception, both
caught by the handler at lines 137-139. -/
inductive RejectReason
  | no_results
  | below_threshold
  | invalid_duration
  | search_error
deriving Repr, DecidableEq

/-- The selector's outcome, the spec's `MatchResult`: the source
returns `best_match['videoId']` or `None`; the score is the
`best_score` the acceptance test read. -/
inductive MatchResult
  | Accepted (videoId : String) (score : ℚ)
  | Rejected (reason : RejectReason)
deriving Repr, DecidableEq

/-- The exceptions the candidate loop can raise: `ZeroDivisionError`
from `duration_diff` when `track['duration_ms'] == 0`, and `ValueError`
from `max()` over an empty `result['artists']` list. -/
inductive SearchErr
  | zero_division
  | value_error
deriving Repr, DecidableEq

/-- The candidate loop of `search_youtube_music` (lines 102-128),
carrying `best_match` (with its score) and `best_score`.  Field check,
then duration computation (the division raises at zero), then the
15%-tolerance filter, then scoring; a strictly better combined score
replaces the running best. -/
def searchLoop (track : Track) :
    List Candidate → Option (Candidate × ℚ) → ℚ →
    Except SearchErr (Option (Candidate × ℚ) × ℚ)
  | [], best, best_score => .ok (best, best_score)
  | c :: rest, best, best_score =>
    match c.title, c.artists, c.duration_seconds with
    | some ctitle, some cartists, some ds =>
      if track.duration_ms = 0 then .error .zero_division
      else
        let duration_diff : ℚ :=
          |(ds : ℚ) * 1000 - (track.duration_ms : ℚ)| / (track.duration_ms : ℚ)
        if 0.15 < duration_diff then searchLoop track rest best best_score
        else
          match cartists with
          | [] => .error .value_error
          | a0 :: arest =>
            let title_score := similarity_ratio track.title ctitle
            let artist_score := (arest.map
              (fun ar => similarity_ratio track.artist ar.name)).foldl max
              (similarity_ratio track.artist a0.name)
            let combined_score := title_score * 0.5 + artist_score * 0.5
            if best_score < combined_score then
              searchLoop track rest (some (c, combined_score)) combined_score
            else searchLoop track rest best best_score
    | _, _, _ => searchLoop track rest best best_score

/-- `PlaylistMigrator.search_youtube_music` (lines 87-139): empty
result list rejects at once; otherwise run the loop; an exception is
caught by the handler (lines 137-139) and the call rejects; the best
match is accepted only when `best_match` is set and
`best_score > 0.6`. -/
def search_youtube_music (track : Track) (results : List Candidate) : MatchResult :=
  if results = [] then .Rejected .no_results
  else
    match searchLoop track results none 0 with
    | .error .zero_division => .Rejected .invalid_duration
    | .error .value_error => .Rejected .search_error
    | .ok (some (c, _), best_score) =>
      if 0.6 < best_score then .Accepted c.videoId best_score
      else .Rejected .below_threshold
    | .ok (none, _) => .Rejected .below_threshold

/-- Specification-side: does the candidate survive the filters (all
required fields present, duration within the 15% tolerance)?  Mirrors
lines 103-112. -/
def candidatePasses (track : Track) (c : Candidate) : Bool :=
  match c.title, c.artists, c.duration_seconds with
  | some _, some _, some ds =>
    decide (|(ds : ℚ) * 1000 - (track.duration_ms : ℚ)| / (track.duration_ms : ℚ) ≤ 0.15)
  | _, _, _ => false

/-- Specification-side: the combined score `0.5*title + 0.5*artist` of
a candidate; 0 when a field is missing or the artist list is empty. -/
def combinedScore (track : Track) (c : Candidate) : ℚ :=
  match c.title, c.artists with
  | some ctitle, some (a0 :: arest) =>
    similarity_ratio track.title ctitle * 0.5 +
      ((arest.map (fun ar => similarity_ratio track.artist ar.name)).foldl max
        (similarity_ratio track.artist a0.name)) * 0.5
  | _, _ => 0

/-- Specification-side: the survivors of the filters, in input order. -/
def survivors (track : Track) (results : List Candidate) : List Candidate :=
  results.filter (candidatePasses track)

/-- Specification-side: the maximum combined score over the survivors
(0 when there are none). -/
def maxScore (track : Track) (results : List Candidate) : ℚ :=
  ((survivors track results).map (combinedScore track)).foldr max 0

/-- Specification-side: the first survivor attaining the maximum
combined score (the first-seen tie-break). -/
def firstBest (track : Track) (results : List Candidate) : Option Candidate :=
  (survivors track results).find?
    (fun c => decide (maxScore track results ≤ combinedScore track c))

/-- The survivors-have-artists side condition: every candidate that
survives the filters carries a nonempty artist list (on such inputs the
`ValueError` of `max()` over an empty sequence cannot fire). -/
def survivorsHaveArtists (track : Track) (results : List Candidate) : Prop :=
  ∀ c ∈ results, candidatePasses track c = true → c.artists.getD [] ≠ []

instance (track : Track) (results : List Candidate) :
    Decidable (survivorsHaveArtists track results) := by
  unfold survivorsHaveArtists
  infer_instance

/-- How the orchestrator reads a `MatchResult`: the source's
`search_youtube_music` returns `Optional[str]`. -/
def MatchResult.toVideoId : MatchResult → Option String
  | .Accepted videoId _ => some videoId
  | .Rejected _ => none

/-- The field-presence check of line 104:
`all(k in result for k in ['title', 'artists', 'duration_seconds'])`. -/
def candidateComplete (c : Candidate) : Bool :=
  c.title.isSome && c.artists.isSome && c.duration_seconds.isSome

/-- A sample source track used by concrete witnesses and
counterexamples: one-character title and artist, 1000 ms. -/
def sampleTrack : Track := ⟨"a", "b", "t1", 1000⟩

/-- A sample track with `duration_ms = 0`. -/
def sampleTrackZero : Track := ⟨"a", "b", "t2", 0⟩

/-- A perfectly matching candidate for `sampleTrack`: equal title and
artist, duration 1 s = 1000 ms. -/
def sampleCand : Candidate := ⟨some "a", some [⟨"b"⟩], some 1, "v1"⟩

/-- A second perfectly matching candidate with a different media id. -/
def sampleCand2 : Candidate := ⟨some "a", some [⟨"b"⟩], some 1, "v2"⟩

/-- A candidate that passes the field and duration filters but carries
an empty artist list (`max()` over it raises `ValueError`). -/
def sampleCandNoArtists : Candidate := ⟨some "a", some [], some 1, "v3"⟩

/-- A candidate missing the required `title` field. -/
def sampleCandNoTitle : Candidate := ⟨none, some [⟨"b"⟩], some 1, "v4"⟩

/-- A second source track differing from `sampleTrack` only in its
source id: it matches the same candidates. -/
def sampleTrackB : Track := ⟨"a", "b", "t3", 1000⟩

/-!
## The migration orchestrator

`migrate_playlist`, `update_youtube_playlist`,
`migrate_all_playlists` (src/offify.py lines 196-278).  The network
collaborators are an environment of pure functions; `None` models a
raised fetch error.  The observable destination-catalog writes and
store saves are an event trace appended to the state.
-/

/-- One entry of `playlists_store['playlists']` (lines 241-245). -/
structure StoreEntry where
  name : String
  youtube_id : String
  last_updated : Nat
deriving Repr, DecidableEq

/-- The observable effects: `create_playlist`, `_save_playlists_store`
(with the snapshot it wrote) and `add_playlist_items`. -/
inductive Event
  | createPlaylist (name : String) (newId : String)
  | saveStore (store : List (String × StoreEntry))
  | addTracks (playlistId : String) (videoId : String)
deriving Repr, DecidableEq

/-- A Spotify playlist as returned by `get_spotify_playlist`. -/
structure SpotifyPlaylistData where
  name : String
  tracks : List Track
deriving Repr, DecidableEq

/-- The network collaborators as pure functions.  `none` on the two
fetchers models the call raising (`FetchError`); `create_playlist` and
`add_playlist_items` are modelled as succeeding (their failures change
no modelled state). -/
structure Env where
  spotifyPlaylist : String → Option SpotifyPlaylistData
  ytSearch : Track → List Candidate
  ytPlaylistTracks : String → Option (List String)
  createdId : String → String
  allPlaylists : List (String × String)

/-- The mutable state: the in-memory store (an association list for the
JSON object `playlists_store['playlists']`), the event trace, and a
logical clock for `time.time()`. -/
structure MigState where
  store : List (String × StoreEntry)
  events : List Event
  clock : Nat
deriving Repr, DecidableEq

/-- Dictionary lookup on the store. -/
def storeLookup (store : List (String × StoreEntry)) (sid : String) :
    Option StoreEntry :=
  (store.find? (fun p => p.1 == sid)).map Prod.snd

/-- Dictionary assignment on the store. -/
def storePut (store : List (String × StoreEntry)) (sid : String)
    (e : StoreEntry) : List (String × StoreEntry) :=
  if (store.find? (fun p => p.1 == sid)).isSome then
    store.map (fun p => if p.1 == sid then (sid, e) else p)
  else store ++ [(sid, e)]

/-- `PlaylistMigrator.update_youtube_playlist` (lines 196-217): fetch
the destination playlist's current video ids once, then for each source
track search and add when the id is truthy and not in that snapshot.
A fetch failure is caught at line 216: nothing happens. -/
def update_youtube_playlist (env : Env) (playlist_id : String)
    (tracks : List Track) (s : MigState) : MigState :=
  match env.ytPlaylistTracks playlist_id with
  | none => s
  | some current_tracks =>
    tracks.foldl (fun st track =>
      match (search_youtube_music track (env.ytSearch track)).toVideoId with
      | some video_id =>
        if video_id ≠ "" ∧ video_id ∉ current_tracks then
          { st with events := st.events ++ [Event.addTracks playlist_id video_id] }
        else st
      | none => st) s

/-- The body of `migrate_playlist` (lines 221-264), before the
`except` handler; `.error` is a raised `FetchError` from
`get_spotify_playlist`.  All mutations of this model happen after the
possible raise, matching the source, so the handler restores nothing. -/
def migrate_playlist_body (env : Env) (spotify_id : String)
    (update_existing : Bool) (s : MigState) :
    Except Unit (Option String × MigState) :=
  match storeLookup s.store spotify_id with
  | some stored_info =>
    if update_existing then
      match env.spotifyPlaylist spotify_id with
      | none => .error ()
      | some playlist =>
        .ok (some stored_info.youtube_id,
          update_youtube_playlist env stored_info.youtube_id playlist.tracks s)
    else .ok (some stored_info.youtube_id, s)
  | none =>
    match env.spotifyPlaylist spotify_id with
    | none => .error ()
    | some playlist =>
      let youtube_id := env.createdId playlist.name
      let s1 := { s with events := s.events ++ [Event.createPlaylist playlist.name youtube_id] }
      let entry : StoreEntry := ⟨playlist.name, youtube_id, s1.clock⟩
      let s2 := { s1 with store := storePut s1.store spotify_id entry, clock := s1.clock + 1 }
      let s3 := { s2 with events := s2.events ++ [Event.saveStore s2.store] }
      let s4 := playlist.tracks.foldl (fun st track =>
        match (search_youtube_music track (env.ytSearch track)).toVideoId with
        | some video_id =>
          if video_id ≠ "" then
            { st with events := st.events ++ [Event.addTracks youtube_id video_id] }
          else st
        | none => st) s3
      .ok (some youtube_id, s4)

/-- `PlaylistMigrator.migrate_playlist` (lines 219-268): the body with
its catch-all handler, which logs and returns `None` (lines 266-268). -/
def migrate_playlist (env : Env) (spotify_id : String)
    (update_existing : Bool) (s : MigState) : Option String × MigState :=
  match migrate_playlist_body env spotify_id update_existing s with
  | .ok r => r
  | .error _ => (none, s)

/-- `PlaylistMigrator.migrate_all_playlists` (lines 270-278): migrate
every listed playlist in order; the loop body never raises because
`migrate_playlist` catches everything. -/
def migrate_all_playlists (env : Env) (update_existing : Bool)
    (s : MigState) : MigState :=
  env.allPlaylists.foldl
    (fun st p => (migrate_playlist env p.1 update_existing st).2) s

/-- A sample store entry for the already-migrated playlist `sp1`. -/
def sampleEntry : StoreEntry := ⟨"P1", "yt1", 5⟩

/-- A sample state whose store already maps `sp1`. -/
def sampleState : MigState := ⟨[("sp1", sampleEntry)], [], 10⟩

/-- The empty initial state. -/
def emptyState : MigState := ⟨[], [], 0⟩

/-- A sample environment: `sp1` is a one-track Spotify playlist; every
search returns the perfectly matching `sampleCand`; every destination
playlist is currently empty. -/
def sampleEnv : Env :=
  ⟨fun sid => if sid = "sp1" then some ⟨"P1", [sampleTrack]⟩ else none,
   fun _ => [sampleCand],
   fun _ => some [],
   fun n => "yt_" ++ n,
   [("sp1", "P1")]⟩

/-- A sample environment for the fresh-migration path: every playlist
fetch succeeds with an empty track list. -/
def sampleEnvNew : Env :=
  ⟨fun _ => some ⟨"P2", []⟩,
   fun _ => [],
   fun _ => some [],
   fun n => "yt_" ++ n,
   []⟩

/-- A sample environment with three playlists where the second one's
fetch raises: the batch-migration scenario. -/
def sampleEnvBatch : Env :=
  ⟨fun sid => if sid = "b2" then none else some ⟨"N" ++ sid, []⟩,
   fun _ => [],
   fun _ => some [],
   fun n => "yt_" ++ n,
   [("b1", "N1"), ("b2", "N2"), ("b3", "N3")]⟩

/-!
## Groundwork: the index lists of the similarity scorer
-/

theorem mem_b2jAll {b : List Char} {ch : Char} {j : Nat} :
    j ∈ b2jAll b ch ↔ j < b.length ∧ b.get? j = some ch := by
  simp only [b2jAll, List.mem_filter, List.mem_range, decide_eq_true_eq]

theorem mem_b2j {b : List Char} {ch : Char} {j : Nat} (h : j ∈ b2j b ch) :
    isPopular b ch = false ∧ j < b.length ∧ b.get? j = some ch := by
  unfold b2j at h
  by_cases hp : isPopular b ch
  · simp [hp] at h
  · rw [if_neg hp] at h
    exact ⟨by simp [hp], mem_b2jAll.mp h⟩

theorem b2j_getD {b : List Char} {ch : Char} {j : Nat} (h : j ∈ b2j b ch) :
    b.getD j default = ch := by
  have h2 := (mem_b2j h).2.2
  rw [List.getD, List.get?_eq_getElem?] at *
  simp [h2]

theorem mem_b2j_lt {b : List Char} {ch : Char} {j : Nat} (h : j ∈ b2j b ch) :
    j < b.length := (mem_b2j h).2.1

/-- An index in the row-`r` list of `c` against itself is in its own
row's list. -/
theorem mem_b2j_self {c : List Char} {r j : Nat}
    (h : j ∈ b2j c (c.getD r default)) : j ∈ b2j c (c.getD j default) := by
  rwa [b2j_getD h]

/-- An index in the row-`r` list of `c` against itself puts row `r`
itself in that list, provided `r` is a valid index. -/
theorem mem_b2j_diag {c : List Char} {r j : Nat}
    (h : j ∈ b2j c (c.getD r default)) (hr : r < c.length) :
    r ∈ b2j c (c.getD r default) := by
  obtain ⟨hpop, -, -⟩ := mem_b2j h
  unfold b2j at h ⊢
  simp only [hpop, if_neg, Bool.false_eq_true, if_false] at h ⊢
  exact mem_b2jAll.mpr ⟨hr, by
    rw [List.get?_eq_getElem?, List.getD, List.get?_eq_getElem?]
    simp [List.getElem?_eq_getElem hr]⟩

theorem b2j_sorted (b : List Char) (ch : Char) :
    (b2j b ch).Pairwise (· < ·) := by
  unfold b2j
  by_cases hp : isPopular b ch
  · simp [hp]
  · simpa [hp] using (List.pairwise_lt_range b.length).filter _

theorem b2j_nodup (b : List Char) (ch : Char) : (b2j b ch).Nodup :=
  (b2j_sorted b ch).imp Nat.ne_of_lt

/-- With the full column range (`blo = 0`, `bhi = length b`) the
`continue`/`break` restriction of the inner loop keeps every index. -/
theorem b2j_filter_full (b : List Char) (ch : Char) :
    (b2j b ch).filter (fun j => decide (0 ≤ j) && decide (j < b.length)) =
      b2j b ch := by
  refine List.filter_eq_self.mpr (fun j hj => ?_)
  simp [mem_b2j_lt hj]

/-!
## Groundwork: chain lengths of the self-comparison dynamic program
-/

theorem runLen_le_row (c : List Char) : ∀ r j, runLen c r j ≤ r + 1 := by
  intro r
  induction r with
  | zero => intro j; unfold runLen; split <;> omega
  | succ r1 ih =>
    intro j
    cases j with
    | zero => unfold runLen; split <;> omega
    | succ j1 =>
      unfold runLen
      split
      · have := ih j1; omega
      · omega

theorem runLen_le_col (c : List Char) : ∀ r j, runLen c r j ≤ j + 1 := by
  intro r
  induction r with
  | zero => intro j; unfold runLen; split <;> omega
  | succ r1 ih =>
    intro j
    cases j with
    | zero => unfold runLen; split <;> omega
    | succ j1 =>
      unfold runLen
      split
      · have := ih j1; omega
      · omega

/-- A chain ending at row `r`, column `j ≤ r` is no longer than the
diagonal chain ending at row `j`. -/
theorem runLen_le_diag_col (c : List Char) :
    ∀ j r, j ≤ r → runLen c r j ≤ runLen c j j := by
  intro j
  induction j with
  | zero =>
    intro r _
    cases r with
    | zero => exact le_refl _
    | succ r1 =>
      unfold runLen
      split
      · rename_i h
        rw [if_pos (mem_b2j_self h)]
      · omega
  | succ j1 ih =>
    intro r hjr
    cases r with
    | zero => omega
    | succ r1 =>
      unfold runLen
      split
      · rename_i h
        rw [if_pos (mem_b2j_self h)]
        have := ih r1 (by omega)
        omega
      · omega

/-- A chain ending at row `r`, column `j ≥ r` is no longer than the
diagonal chain ending at row `r`. -/
theorem runLen_le_diag_row (c : List Char) :
    ∀ r j, r ≤ j → runLen c r j ≤ runLen c r r := by
  intro r
  induction r with
  | zero =>
    intro j _
    cases j with
    | zero => exact le_refl _
    | succ j1 =>
      unfold runLen
      split
      · rename_i h
        have h0 : (0 : Nat) < c.length := by
          have := mem_b2j_lt h; omega
        rw [if_pos (mem_b2j_diag h h0)]
      · omega
  | succ r1 ih =>
    intro j hrj
    cases j with
    | zero => omega
    | succ j1 =>
      unfold runLen
      split
      · rename_i h
        have hr : r1 + 1 < c.length := by
          have := mem_b2j_lt h; omega
        rw [if_pos (mem_b2j_diag h hr)]
        have := ih j1 (by omega)
        omega
      · omega

/-- The value the inner loop writes at a column of row `i` is the chain
length at that cell, when the previous row's dictionary is the chain
function of row `i - 1`. -/
theorem kOf_runLenP (c : List Char) (i j : Nat)
    (h : j ∈ b2j c (c.getD i default)) :
    kOf (runLenP c i) j = runLen c i j := by
  cases i with
  | zero =>
    cases j with
    | zero => simp only [kOf, runLenP, runLen]; rw [if_pos h]
    | succ j1 => simp only [kOf, runLenP, runLen]; rw [if_pos h]
  | succ i1 =>
    cases j with
    | zero => simp only [kOf, runLenP, runLen]; rw [if_pos h]
    | succ j1 => simp only [kOf, runLenP, runLen]; rw [if_pos h]

/-!
## Groundwork: the dynamic program of `find_longest_match`
-/

/-- The new dictionary built by a row of the inner loop: the written
value at a visited column comes from the previous row's dictionary, so
the visiting order does not matter. -/
theorem flmRowGo_snd (j2len : Nat → Nat) (i : Nat) :
    ∀ (js : List Nat) (best : FlmBest) (nj : Nat → Nat) (x : Nat),
    (flmRowGo j2len i js best nj).2 x =
      if x ∈ js then kOf j2len x else nj x := by
  intro js
  induction js with
  | nil => intro best nj x; simp [flmRowGo]
  | cons j rest ih =>
    intro best nj x
    simp only [flmRowGo]
    split <;>
    · rw [ih]
      by_cases hx : x ∈ rest
      · simp [hx]
      · by_cases hxj : x = j
        · simp [hx, hxj]
        · simp [hx, hxj]

/-- Bounds invariant of the inner loop: starting from the initial best
`⟨alo, blo, 0⟩` or from a nonempty in-rectangle match, the row of
index `i = alo + m` (with the previous dictionary capped by the row
count `m`) ends in the same disjunction. -/
theorem flmRowGo_bounds (j2len : Nat → Nat) (i alo ahi blo bhi m : Nat)
    (hio : alo ≤ i) (hia : i < ahi) (hm : i = alo + m)
    (hcap : ∀ x, j2len x ≤ m ∧ j2len x ≤ x + 1 - blo) :
    ∀ (js : List Nat) (best : FlmBest) (nj : Nat → Nat),
    (∀ j ∈ js, blo ≤ j ∧ j < bhi) →
    (best = ⟨alo, blo, 0⟩ ∨
      (0 < best.bestsize ∧ FlmBounds alo ahi blo bhi best)) →
    ((flmRowGo j2len i js best nj).1 = ⟨alo, blo, 0⟩ ∨
      (0 < (flmRowGo j2len i js best nj).1.bestsize ∧
        FlmBounds alo ahi blo bhi (flmRowGo j2len i js best nj).1)) := by
  intro js
  induction js with
  | nil => intro best nj _ hb; simpa [flmRowGo] using hb
  | cons j rest ih =>
    intro best nj hjs hb
    have hj := hjs j (by simp)
    simp only [flmRowGo]
    split
    · refine ih _ _ (fun x hx => hjs x (by simp [hx])) (Or.inr ?_)
      have hk : kOf j2len j ≤ m + 1 ∧ kOf j2len j + blo ≤ j + 1 ∧ 0 < kOf j2len j := by
        cases j with
        | zero =>
          have := hj.1
          simp only [kOf]
          omega
        | succ j1 =>
          have h1 := hcap j1
          have h2 := hj.1
          simp only [kOf]
          omega
      unfold FlmBounds
      dsimp only
      omega
    · exact ih _ _ (fun x hx => hjs x (by simp [hx])) hb

/-- Diagonal invariant of the inner loop on the self-comparison: with
the previous dictionary equal to the chain function, a best that is
diagonal and dominates every diagonal chain of the earlier rows stays
diagonal, grows monotonically, and ends dominating this row's diagonal
chain as well. -/
theorem flmRowGo_diag (c : List Char) (i : Nat) :
    ∀ (js : List Nat) (best : FlmBest) (nj : Nat → Nat),
    js.Pairwise (· < ·) →
    (∀ j ∈ js, j ∈ b2j c (c.getD i default)) →
    best.besti = best.bestj →
    (∀ j, j < i → runLen c i j ≤ best.bestsize) →
    (i ∈ js ∨ runLen c i i ≤ best.bestsize) →
    ((flmRowGo (runLenP c i) i js best nj).1.besti =
        (flmRowGo (runLenP c i) i js best nj).1.bestj ∧
      best.bestsize ≤ (flmRowGo (runLenP c i) i js best nj).1.bestsize ∧
      runLen c i i ≤ (flmRowGo (runLenP c i) i js best nj).1.bestsize) := by
  intro js
  induction js with
  | nil =>
    intro best nj _ _ hdiag _ hdisj
    have hii : runLen c i i ≤ best.bestsize := by
      rcases hdisj with h | h
      · simp at h
      · exact h
    simp only [flmRowGo]
    exact ⟨hdiag, le_refl _, hii⟩
  | cons j rest ih =>
    intro best nj hsort hmem hdiag hlt hdisj
    have hjmem := hmem j (by simp)
    have hkr : kOf (runLenP c i) j = runLen c i j := kOf_runLenP c i j hjmem
    simp only [flmRowGo]
    rcases Nat.lt_trichotomy j i with hji | hji | hji
    · -- a column left of the diagonal cannot strictly improve
      have hle : runLen c i j ≤ runLen c j j := runLen_le_diag_col c j i (le_of_lt hji)
      have hno : ¬ best.bestsize < kOf (runLenP c i) j := by
        rw [hkr]
        have := hlt j hji
        omega
      rw [if_neg hno]
      refine ih _ _ hsort.of_cons (fun x hx => hmem x (by simp [hx])) hdiag hlt ?_
      rcases hdisj with h | h
      · rcases List.mem_cons.mp h with h1 | h1
        · omega
        · exact Or.inl h1
      · exact Or.inr h
    · -- the diagonal column
      subst hji
      split
      · rename_i hklt
        have hklt2 : best.bestsize < runLen c j j := by rwa [hkr] at hklt
        obtain ⟨hd, hmono, hdd⟩ := ih
          (⟨j + 1 - kOf (runLenP c j) j, j + 1 - kOf (runLenP c j) j,
            kOf (runLenP c j) j⟩ : FlmBest)
          (fun x => if x = j then kOf (runLenP c j) j else nj x)
          hsort.of_cons (fun x hx => hmem x (by simp [hx])) rfl
          (fun x hx => by
            have h1 := hlt x hx
            have h2 : runLen c j x ≤ kOf (runLenP c j) j := by rw [hkr]; omega
            exact h2)
          (Or.inr (by rw [hkr]))
        refine ⟨hd, ?_, hdd⟩
        calc best.bestsize
            ≤ kOf (runLenP c j) j := le_of_lt hklt
          _ ≤ _ := hmono
      · rename_i hklt
        have hk2 : runLen c j j ≤ best.bestsize := by
          rw [hkr] at hklt
          omega
        exact ih _ _ hsort.of_cons (fun x hx => hmem x (by simp [hx])) hdiag hlt
          (Or.inr hk2)
    · -- a column right of the diagonal cannot strictly improve either
      have hii : runLen c i i ≤ best.bestsize := by
        rcases hdisj with h | h
        · rcases List.mem_cons.mp h with h1 | h1
          · omega
          · have := (List.pairwise_cons.mp hsort).1 i h1
            omega
        · exact h
      have hle : runLen c i j ≤ runLen c i i := runLen_le_diag_row c i j (le_of_lt hji)
      have hno : ¬ best.bestsize < kOf (runLenP c i) j := by
        rw [hkr]; omega
      rw [if_neg hno]
      exact ih _ _ hsort.of_cons (fun x hx => hmem x (by simp [hx])) hdiag hlt
        (Or.inr hii)

/-- A cell outside the row's index list has chain length 0. -/
theorem runLen_eq_zero_of_not_mem (c : List Char) (i x : Nat)
    (h : x ∉ b2j c (c.getD i default)) : runLen c i x = 0 := by
  cases i with
  | zero =>
    cases x with
    | zero => unfold runLen; rw [if_neg h]
    | succ x1 => unfold runLen; rw [if_neg h]
  | succ i1 =>
    cases x with
    | zero => unfold runLen; rw [if_neg h]
    | succ x1 => unfold runLen; rw [if_neg h]

/-- Bounds invariant of the dynamic program over a block of rows. -/
theorem flmRows_bounds (a b : List Char) (alo blo bhi ahi : Nat) :
    ∀ (len i m : Nat) (best : FlmBest) (j2len : Nat → Nat),
    alo ≤ i → i = alo + m → len ≤ ahi - i →
    (∀ x, j2len x ≤ m ∧ j2len x ≤ x + 1 - blo) →
    (best = ⟨alo, blo, 0⟩ ∨
      (0 < best.bestsize ∧ FlmBounds alo ahi blo bhi best)) →
    (flmRows a b blo bhi (List.range' i len) best j2len = ⟨alo, blo, 0⟩ ∨
      (0 < (flmRows a b blo bhi (List.range' i len) best j2len).bestsize ∧
        FlmBounds alo ahi blo bhi
          (flmRows a b blo bhi (List.range' i len) best j2len))) := by
  intro len
  induction len with
  | zero =>
    intro i m best j2len _ _ _ _ hb
    simpa [List.range', flmRows] using hb
  | succ len1 ih =>
    intro i m best j2len hio hm hia hcap hb
    rw [List.range'_succ i len1 1]
    simp only [flmRows]
    have hstep := flmRowGo_bounds j2len i alo ahi blo bhi m hio (by omega) hm hcap
      ((b2j b (a.getD i default)).filter
        (fun j => decide (blo ≤ j) && decide (j < bhi)))
      best (fun _ => 0)
      (fun j hj => by
        have := List.mem_filter.mp hj
        simpa using this.2)
      hb
    refine ih (i + 1) (m + 1) _ _ (by omega) (by omega) (by omega) ?_ hstep
    intro x
    rw [flmRowGo_snd]
    split
    · rename_i hx
      have hxb : blo ≤ x ∧ x < bhi := by
        simpa using (List.mem_filter.mp hx).2
      cases x with
      | zero =>
        have := hxb.1
        simp only [kOf]
        omega
      | succ x1 =>
        have h1 := hcap x1
        have h2 := hxb.1
        simp only [kOf]
        omega
    · omega

/-- Diagonal invariant of the dynamic program on the self-comparison:
starting a block of rows with a diagonal best that dominates every
earlier diagonal chain, the final best is still diagonal. -/
theorem flmRows_diag (c : List Char) :
    ∀ (len i : Nat) (best : FlmBest),
    best.besti = best.bestj →
    (∀ r, r < i → runLen c r r ≤ best.bestsize) →
    ((flmRows c c 0 c.length (List.range' i len) best (runLenP c i)).besti =
      (flmRows c c 0 c.length (List.range' i len) best (runLenP c i)).bestj) := by
  intro len
  induction len with
  | zero =>
    intro i best hdiag _
    simpa [List.range', flmRows] using hdiag
  | succ len1 ih =>
    intro i best hdiag hdom
    rw [List.range'_succ i len1 1]
    simp only [flmRows]
    rw [b2j_filter_full]
    obtain ⟨hd, hmono, hdd⟩ := flmRowGo_diag c i (b2j c (c.getD i default)) best
      (fun _ => 0) (b2j_sorted c _) (fun _ hj => hj) hdiag
      (fun j hj => le_trans (runLen_le_diag_col c j i (le_of_lt hj)) (hdom j hj))
      (by
        by_cases hi : i ∈ b2j c (c.getD i default)
        · exact Or.inl hi
        · exact Or.inr (by rw [runLen_eq_zero_of_not_mem c i i hi]; omega))
    have hsnd : (flmRowGo (runLenP c i) i (b2j c (c.getD i default)) best
        (fun _ => 0)).2 = runLenP c (i + 1) := by
      funext x
      rw [flmRowGo_snd]
      show _ = runLen c i x
      split
      · rename_i hx
        exact kOf_runLenP c i x hx
      · rename_i hx
        exact (runLen_eq_zero_of_not_mem c i x hx).symm
    rw [hsnd]
    refine ih (i + 1) _ hd ?_
    intro r hr
    rcases Nat.lt_or_ge r i with h1 | h1
    · exact le_trans (hdom r h1) hmono
    · have : r = i := by omega
      subst this
      exact hdd

/-- On the self-comparison, the backward extension loop drags a
diagonal match all the way back to the start of the range. -/
theorem extendBack_self (c : List Char) :
    ∀ d s, extendBack c c 0 0 d d s = ⟨0, 0, s + d⟩ := by
  intro d
  induction d with
  | zero => intro s; simp [extendBack]
  | succ bi ih =>
    intro s
    unfold extendBack
    rw [if_pos ⟨Nat.zero_le _, Nat.succ_pos _, rfl⟩]
    have harith : s + 1 + bi = s + (bi + 1) := by omega
    rw [show bi + 1 - 1 = bi from rfl, ih (s + 1), harith]

/-- On the self-comparison from the start of the range, the forward
extension loop reaches the end of the range. -/
theorem extendFwd_self (c : List Char) (n : Nat) :
    ∀ g t, t + g = n → extendFwdGo c c n 0 0 g t = n := by
  intro g
  induction g with
  | zero => intro t ht; simpa [extendFwdGo] using ht
  | succ g1 ih =>
    intro t ht
    unfold extendFwdGo
    rw [if_pos ⟨by omega, rfl⟩]
    exact ih (t + 1) (by omega)

/-- The backward extension loop preserves the bounds disjunction. -/
theorem extendBack_pres (a b : List Char) (alo ahi blo bhi : Nat) :
    ∀ (bi bj bs : Nat),
    ((⟨bi, bj, bs⟩ : FlmBest) = ⟨alo, blo, 0⟩ ∨
      (0 < bs ∧ FlmBounds alo ahi blo bhi ⟨bi, bj, bs⟩)) →
    (extendBack a b alo blo bi bj bs = ⟨alo, blo, 0⟩ ∨
      (0 < (extendBack a b alo blo bi bj bs).bestsize ∧
        FlmBounds alo ahi blo bhi (extendBack a b alo blo bi bj bs))) := by
  intro bi
  induction bi with
  | zero =>
    intro bj bs hb
    simpa [extendBack] using hb
  | succ b1 ih =>
    intro bj bs hb
    unfold extendBack
    split
    · rename_i hcond
      refine ih (bj - 1) (bs + 1) (Or.inr ?_)
      rcases hb with h | h
      · exfalso
        simp only [FlmBest.mk.injEq] at h
        omega
      · obtain ⟨-, h1, h2, h3, h4⟩ := h
        unfold FlmBounds at *
        dsimp only at *
        refine ⟨by omega, by omega, by omega, by omega, by omega⟩
    · exact hb

/-- What the forward extension loop guarantees about its result. -/
theorem extendFwdGo_spec (a b : List Char) (bhi besti bestj : Nat) :
    ∀ g t, t ≤ extendFwdGo a b bhi besti bestj g t ∧
      extendFwdGo a b bhi besti bestj g t ≤ t + g ∧
      (extendFwdGo a b bhi besti bestj g t = t ∨
        bestj + extendFwdGo a b bhi besti bestj g t ≤ bhi) := by
  intro g
  induction g with
  | zero => intro t; simp [extendFwdGo]
  | succ g1 ih =>
    intro t
    unfold extendFwdGo
    split
    · rename_i hcond
      obtain ⟨h1, h2, h3⟩ := ih (t + 1)
      refine ⟨by omega, by omega, ?_⟩
      rcases h3 with h | h
      · exact Or.inr (by omega)
      · exact Or.inr h
    · simp

/-- Assembling the extension loops after the dynamic program: the
result is inside the rectangle whenever it is nonempty. -/
theorem flmFinish_bounds (a b : List Char) (alo ahi blo bhi : Nat)
    (dp : FlmBest)
    (hdp : dp = ⟨alo, blo, 0⟩ ∨
      (0 < dp.bestsize ∧ FlmBounds alo ahi blo bhi dp))
    (bk : FlmBest) (hbkdef : bk = extendBack a b alo blo dp.besti dp.bestj dp.bestsize)
    (r : Nat)
    (hrdef : r = extendFwdGo a b bhi bk.besti bk.bestj
      (ahi - (bk.besti + bk.bestsize)) bk.bestsize)
    (h : 0 < r) :
    FlmBounds alo ahi blo bhi ⟨bk.besti, bk.bestj, r⟩ := by
  have hbk : bk = ⟨alo, blo, 0⟩ ∨
      (0 < bk.bestsize ∧ FlmBounds alo ahi blo bhi bk) := by
    rw [hbkdef]
    exact extendBack_pres a b alo ahi blo bhi dp.besti dp.bestj dp.bestsize hdp
  obtain ⟨hf1, hf2, hf3⟩ := extendFwdGo_spec a b bhi bk.besti bk.bestj
    (ahi - (bk.besti + bk.bestsize)) bk.bestsize
  rw [← hrdef] at hf1 hf2 hf3
  unfold FlmBounds
  dsimp only
  rcases hbk with h1 | h1
  · rw [h1] at hf1 hf2 hf3 ⊢
    dsimp only at hf1 hf2 hf3 ⊢
    rcases hf3 with h2 | h2
    · omega
    · refine ⟨le_refl _, by omega, le_refl _, h2⟩
  · obtain ⟨hpos, hb1, hb2, hb3, hb4⟩ := h1
    refine ⟨hb1, by omega, hb3, ?_⟩
    rcases hf3 with h2 | h2
    · omega
    · exact h2

/-- `find_longest_match` returns a block inside the requested
rectangle whenever it returns a nonempty block. -/
theorem flm_bounds (a b : List Char) (alo ahi blo bhi : Nat)
    (h : 0 < (find_longest_match a b alo ahi blo bhi).bestsize) :
    FlmBounds alo ahi blo bhi (find_longest_match a b alo ahi blo bhi) := by
  have hdp := flmRows_bounds a b alo blo bhi ahi (ahi - alo) alo 0 ⟨alo, blo, 0⟩
    (fun _ => 0) (le_refl _) (by omega) (le_refl _)
    (fun x => ⟨Nat.le_refl 0, Nat.zero_le _⟩) (Or.inl rfl)
  have hres := flmFinish_bounds a b alo ahi blo bhi
    (flmRows a b blo bhi (List.range' alo (ahi - alo)) ⟨alo, blo, 0⟩ (fun _ => 0))
    hdp _ rfl _ rfl (by
      simpa only [find_longest_match] using h)
  simpa only [find_longest_match] using hres

/-- On the self-comparison over the full range, `find_longest_match`
returns the whole diagonal: the dynamic program's best is diagonal and
the extension loops stretch it to the full range. -/
theorem flm_self (c : List Char) :
    find_longest_match c c 0 c.length 0 c.length = ⟨0, 0, c.length⟩ := by
  have hzero : (fun _ => 0 : Nat → Nat) = runLenP c 0 := by
    funext x; rfl
  simp only [find_longest_match]
  rw [hzero]
  have hdiag := flmRows_diag c (c.length - 0) 0 ⟨0, 0, 0⟩ rfl
    (fun r hr => absurd hr (Nat.not_lt_zero r))
  have hdp := flmRows_bounds c c 0 0 c.length c.length (c.length - 0) 0 0
    ⟨0, 0, 0⟩ (runLenP c 0) (le_refl _) (by omega) (le_refl _)
    (fun x => by simp only [runLenP]; omega) (Or.inl rfl)
  generalize hgen : flmRows c c 0 c.length (List.range' 0 (c.length - 0))
    ⟨0, 0, 0⟩ (runLenP c 0) = dp at hdiag hdp ⊢
  rw [← hdiag]
  rw [extendBack_self c dp.besti dp.bestsize]
  dsimp only
  have hle : dp.bestsize + dp.besti ≤ c.length := by
    rcases hdp with h1 | h1
    · rw [h1]; dsimp only; omega
    · obtain ⟨-, -, h2, -, -⟩ := h1
      omega
  rw [extendFwd_self c c.length (c.length - (0 + (dp.bestsize + dp.besti)))
    (dp.bestsize + dp.besti) (by omega)]

/-!
## The matching total and the ratio
-/

/-- The recursion finds nothing over empty ranges. -/
theorem matchingTotalGo_empty (a b : List Char) :
    ∀ (fuel x y : Nat), matchingTotalGo a b fuel x x y y = 0 := by
  intro fuel x y
  cases fuel with
  | zero => rfl
  | succ f1 =>
    simp only [matchingTotalGo]
    have hz : ¬ 0 < (find_longest_match a b x x y y).bestsize := by
      intro hpos
      obtain ⟨h1, h2, -, -⟩ := flm_bounds a b x x y y hpos
      omega
    rw [if_neg hz]

/-- On the self-comparison every element is matched. -/
theorem matchingTotal_self (c : List Char) : matchingTotal c c = c.length := by
  unfold matchingTotal
  simp only [matchingTotalGo, flm_self]
  by_cases h : 0 < c.length
  · rw [if_pos h]
    simp only [Nat.zero_add]
    rw [matchingTotalGo_empty, matchingTotalGo_empty]
    omega
  · rw [if_neg h]
    omega

/-- The matching total is bounded by each sequence range's length. -/
theorem matchingTotalGo_le (a b : List Char) :
    ∀ (fuel alo ahi blo bhi : Nat),
    matchingTotalGo a b fuel alo ahi blo bhi ≤ ahi - alo ∧
      matchingTotalGo a b fuel alo ahi blo bhi ≤ bhi - blo := by
  intro fuel
  induction fuel with
  | zero => intro alo ahi blo bhi; exact ⟨Nat.zero_le _, Nat.zero_le _⟩
  | succ f1 ih =>
    intro alo ahi blo bhi
    simp only [matchingTotalGo]
    split
    · rename_i hpos
      obtain ⟨h1, h2, h3, h4⟩ := flm_bounds a b alo ahi blo bhi hpos
      obtain ⟨ha1, hb1⟩ := ih alo (find_longest_match a b alo ahi blo bhi).besti
        blo (find_longest_match a b alo ahi blo bhi).bestj
      obtain ⟨ha2, hb2⟩ := ih
        ((find_longest_match a b alo ahi blo bhi).besti +
          (find_longest_match a b alo ahi blo bhi).bestsize) ahi
        ((find_longest_match a b alo ahi blo bhi).bestj +
          (find_longest_match a b alo ahi blo bhi).bestsize) bhi
      constructor
      · omega
      · omega
    · exact ⟨Nat.zero_le _, Nat.zero_le _⟩

/-- The fuel is irrelevant once it dominates the total range length:
the recursion of `get_matching_blocks` terminates on its own. -/
theorem matchingTotalGo_fuel (a b : List Char) :
    ∀ (f g alo ahi blo bhi : Nat),
    (ahi - alo) + (bhi - blo) < f → (ahi - alo) + (bhi - blo) < g →
    matchingTotalGo a b f alo ahi blo bhi =
      matchingTotalGo a b g alo ahi blo bhi := by
  intro f
  induction f with
  | zero => intro g alo ahi blo bhi hf; omega
  | succ f1 ih =>
    intro g alo ahi blo bhi hf hg
    cases g with
    | zero => omega
    | succ g1 =>
      simp only [matchingTotalGo]
      split
      · rename_i hpos
        obtain ⟨h1, h2, h3, h4⟩ := flm_bounds a b alo ahi blo bhi hpos
        rw [ih g1 alo (find_longest_match a b alo ahi blo bhi).besti
          blo (find_longest_match a b alo ahi blo bhi).bestj
          (by omega) (by omega)]
        rw [ih g1
          ((find_longest_match a b alo ahi blo bhi).besti +
            (find_longest_match a b alo ahi blo bhi).bestsize) ahi
          ((find_longest_match a b alo ahi blo bhi).bestj +
            (find_longest_match a b alo ahi blo bhi).bestsize) bhi
          (by omega) (by omega)]
      · rfl

theorem matchingTotal_le (a b : List Char) :
    matchingTotal a b ≤ a.length ∧ matchingTotal a b ≤ b.length := by
  unfold matchingTotal
  have := matchingTotalGo_le a b (a.length + b.length + 1) 0 a.length 0 b.length
  omega

/-- The scorer never returns a negative value. -/
theorem ratio_nonneg (a b : List Char) : 0 ≤ ratio a b := by
  unfold ratio
  split
  · norm_num
  · apply div_nonneg
    · positivity
    · positivity

/-- The scorer never returns more than 1. -/
theorem ratio_le_one (a b : List Char) : ratio a b ≤ 1 := by
  unfold ratio
  split
  · norm_num
  · rename_i hne
    have hpos : (0 : ℚ) < (a.length : ℚ) + (b.length : ℚ) := by
      have h0 : 0 < a.length + b.length := Nat.pos_of_ne_zero hne
      exact_mod_cast h0
    rw [div_le_one hpos]
    obtain ⟨h1, h2⟩ := matchingTotal_le a b
    have hnat : 2 * matchingTotal a b ≤ a.length + b.length := by omega
    exact_mod_cast hnat

/-- The scorer gives identical inputs the full score. -/
theorem ratio_self (c : List Char) : ratio c c = 1 := by
  unfold ratio
  split
  · rfl
  · rename_i hne
    rw [matchingTotal_self]
    have hlen : (c.length : ℚ) ≠ 0 := by
      intro h
      exact hne (by exact_mod_cast (by
        have : (c.length : ℚ) = 0 := h
        have : c.length = 0 := by exact_mod_cast this
        omega))
    field_simp
    ring

/-- `_similarity_ratio(a, a) = 1.0`: both sides are lowercased the same
way, and the ratio of a sequence against itself is 1. -/
theorem similarity_self (s : String) : similarity_ratio s s = 1 :=
  ratio_self (lowerChars s)

theorem similarity_nonneg (a b : String) : 0 ≤ similarity_ratio a b :=
  ratio_nonneg _ _

theorem similarity_le_one (a b : String) : similarity_ratio a b ≤ 1 :=
  ratio_le_one _ _

/-- Claim C9: for every text `a`, the similarity scorer satisfies
`similarity(a, a) == 1.0` (including the empty string), and every
returned value lies in `[0, 1]`. -/
theorem C9_similarity_identity_and_range :
    (∀ a : String, similarity_ratio a a = 1) ∧
    (∀ a b : String, 0 ≤ similarity_ratio a b ∧ similarity_ratio a b ≤ 1) :=
  ⟨fun a => similarity_self a,
   fun a b => ⟨similarity_nonneg a b, similarity_le_one a b⟩⟩

/-!
## The match selector: the candidate loop
-/

theorem le_foldl_max (l : List ℚ) : ∀ q : ℚ, q ≤ l.foldl max q := by
  induction l with
  | nil => intro q; simp
  | cons x l ih =>
    intro q
    simp only [List.foldl_cons]
    exact le_trans (le_max_left q x) (ih (max q x))

theorem foldr_max_nonneg (l : List ℚ) : 0 ≤ l.foldr max 0 := by
  induction l with
  | nil => simp
  | cons x l ih =>
    simp only [List.foldr_cons]
    exact le_trans ih (le_max_right x _)

/-- Every combined score is nonnegative (the two similarity scores
are). -/
theorem combinedScore_nonneg (track : Track) (c : Candidate) :
    0 ≤ combinedScore track c := by
  unfold combinedScore
  split
  · rename_i ctitle a0 arest heq1 heq2
    have h1 := similarity_nonneg track.title ctitle
    have h2 : (0 : ℚ) ≤ (arest.map
        (fun ar => similarity_ratio track.artist ar.name)).foldl max
        (similarity_ratio track.artist a0.name) :=
      le_trans (similarity_nonneg track.artist a0.name) (le_foldl_max _ _)
    have e1 : (0 : ℚ) ≤ similarity_ratio track.title ctitle * 0.5 := by
      nlinarith
    nlinarith
  · exact le_refl 0

theorem maxScore_nonneg (track : Track) (results : List Candidate) :
    0 ≤ maxScore track results := foldr_max_nonneg _

/-- The key invariant of the candidate loop (lines 102-128), for a
track with positive duration and no surviving candidate with an empty
artist list: the loop never raises; when every remaining combined score
is at most the running best score, the state is returned unchanged;
otherwise the loop returns the first candidate attaining the maximum
remaining combined score, with that score. -/
theorem searchLoop_spec (track : Track) (hd : 0 < track.duration_ms) :
    ∀ (l : List Candidate) (b : Option (Candidate × ℚ)) (s : ℚ),
    0 ≤ s →
    (∀ c ∈ l, candidatePasses track c = true → c.artists.getD [] ≠ []) →
    ((maxScore track l ≤ s → searchLoop track l b s = .ok (b, s)) ∧
     (s < maxScore track l →
       ∃ c, (survivors track l).find?
           (fun c2 => decide (maxScore track l ≤ combinedScore track c2)) = some c ∧
         combinedScore track c = maxScore track l ∧
         searchLoop track l b s =
           .ok (some (c, maxScore track l), maxScore track l))) := by
  intro l
  induction l with
  | nil =>
    intro b s hs _
    constructor
    · intro _
      simp [searchLoop]
    · intro hlt
      exfalso
      simp only [maxScore, survivors, List.filter_nil, List.map_nil,
        List.foldr_nil] at hlt
      linarith
  | cons c rest ih =>
    intro b s hs hart
    have hd0 : track.duration_ms ≠ 0 := by omega
    obtain ⟨oct, oca, ocd, cv⟩ := c
    -- the seven incomplete shapes all skip the candidate
    rcases oct with _ | ctitle
    · have hskip : candidatePasses track ⟨none, oca, ocd, cv⟩ = false := by
        unfold candidatePasses
        cases oca <;> cases ocd <;> rfl
      have hloop : searchLoop track (⟨none, oca, ocd, cv⟩ :: rest) b s =
          searchLoop track rest b s := by
        cases oca <;> cases ocd <;> rfl
      have hsurv : survivors track (⟨none, oca, ocd, cv⟩ :: rest) =
          survivors track rest := by
        simp [survivors, List.filter_cons, hskip]
      have hmax : maxScore track (⟨none, oca, ocd, cv⟩ :: rest) =
          maxScore track rest := by
        simp [maxScore, hsurv]
      rw [hloop, hsurv, hmax]
      exact ih b s hs (fun x hx => hart x (by simp [hx]))
    rcases oca with _ | cartists
    · have hskip : candidatePasses track ⟨some ctitle, none, ocd, cv⟩ = false := by
        unfold candidatePasses
        cases ocd <;> rfl
      have hloop : searchLoop track (⟨some ctitle, none, ocd, cv⟩ :: rest) b s =
          searchLoop track rest b s := by
        cases ocd <;> rfl
      have hsurv : survivors track (⟨some ctitle, none, ocd, cv⟩ :: rest) =
          survivors track rest := by
        simp [survivors, List.filter_cons, hskip]
      have hmax : maxScore track (⟨some ctitle, none, ocd, cv⟩ :: rest) =
          maxScore track rest := by
        simp [maxScore, hsurv]
      rw [hloop, hsurv, hmax]
      exact ih b s hs (fun x hx => hart x (by simp [hx]))
    rcases ocd with _ | ds
    · have hskip : candidatePasses track ⟨some ctitle, some cartists, none, cv⟩ =
          false := rfl
      have hloop : searchLoop track (⟨some ctitle, some cartists, none, cv⟩ :: rest)
          b s = searchLoop track rest b s := rfl
      have hsurv : survivors track (⟨some ctitle, some cartists, none, cv⟩ :: rest) =
          survivors track rest := by
        simp [survivors, List.filter_cons, hskip]
      have hmax : maxScore track (⟨some ctitle, some cartists, none, cv⟩ :: rest) =
          maxScore track rest := by
        simp [maxScore, hsurv]
      rw [hloop, hsurv, hmax]
      exact ih b s hs (fun x hx => hart x (by simp [hx]))
    -- the complete shape
    by_cases hdur : (0.15 : ℚ) <
        |(ds : ℚ) * 1000 - (track.duration_ms : ℚ)| / (track.duration_ms : ℚ)
    · -- outside the duration tolerance: skipped
      have hskip : candidatePasses track ⟨some ctitle, some cartists, some ds, cv⟩ =
          false := by
        unfold candidatePasses
        simp only [decide_eq_false_iff_not]
        linarith
      have hloop : searchLoop track
          (⟨some ctitle, some cartists, some ds, cv⟩ :: rest) b s =
          searchLoop track rest b s := by
        conv_lhs => rw [searchLoop]
        simp only
        rw [if_neg hd0, if_pos hdur]
      have hsurv : survivors track (⟨some ctitle, some cartists, some ds, cv⟩ :: rest) =
          survivors track rest := by
        simp [survivors, List.filter_cons, hskip]
      have hmax : maxScore track (⟨some ctitle, some cartists, some ds, cv⟩ :: rest) =
          maxScore track rest := by
        simp [maxScore, hsurv]
      rw [hloop, hsurv, hmax]
      exact ih b s hs (fun x hx => hart x (by simp [hx]))
    · -- a survivor
      have hpass : candidatePasses track ⟨some ctitle, some cartists, some ds, cv⟩ =
          true := by
        unfold candidatePasses
        simp only [decide_eq_true_eq]
        linarith
      have hart0 := hart ⟨some ctitle, some cartists, some ds, cv⟩ (by simp) hpass
      rcases cartists with _ | ⟨a0, arest⟩
      · simp at hart0
      have hcs : combinedScore track ⟨some ctitle, some (a0 :: arest), some ds, cv⟩ =
          similarity_ratio track.title ctitle * 0.5 +
            ((arest.map (fun ar => similarity_ratio track.artist ar.name)).foldl max
              (similarity_ratio track.artist a0.name)) * 0.5 := rfl
      have hsurv : survivors track
          (⟨some ctitle, some (a0 :: arest), some ds, cv⟩ :: rest) =
          ⟨some ctitle, some (a0 :: arest), some ds, cv⟩ :: survivors track rest := by
        simp [survivors, List.filter_cons, hpass]
      have hmax : maxScore track (⟨some ctitle, some (a0 :: arest), some ds, cv⟩ :: rest) =
          max (combinedScore track ⟨some ctitle, some (a0 :: arest), some ds, cv⟩)
            (maxScore track rest) := by
        simp only [maxScore, hsurv, List.map_cons, List.foldr_cons]
      have hloop : searchLoop track
          (⟨some ctitle, some (a0 :: arest), some ds, cv⟩ :: rest) b s =
          (if s < combinedScore track ⟨some ctitle, some (a0 :: arest), some ds, cv⟩
           then searchLoop track rest
             (some (⟨some ctitle, some (a0 :: arest), some ds, cv⟩,
               combinedScore track ⟨some ctitle, some (a0 :: arest), some ds, cv⟩))
             (combinedScore track ⟨some ctitle, some (a0 :: arest), some ds, cv⟩)
           else searchLoop track rest b s) := by
        conv_lhs => rw [searchLoop]
        simp only
        rw [if_neg hd0, if_neg hdur]
        simp only [← hcs]
      set cc := combinedScore track ⟨some ctitle, some (a0 :: arest), some ds, cv⟩
        with hccdef
      rw [hloop, hmax]
      by_cases hcc : s < cc
      · rw [if_pos hcc]
        have hcc0 : 0 ≤ cc := combinedScore_nonneg _ _
        obtain ⟨ih1, ih2⟩ := ih
          (some (⟨some ctitle, some (a0 :: arest), some ds, cv⟩, cc)) cc hcc0
          (fun x hx => hart x (by simp [hx]))
        rcases le_or_lt (maxScore track rest) cc with hmr | hmr
        · -- the head attains the maximum
          have hmx : max cc (maxScore track rest) = cc := max_eq_left hmr
          rw [hmx]
          constructor
          · intro hle
            linarith
          · intro _
            refine ⟨⟨some ctitle, some (a0 :: arest), some ds, cv⟩, ?_, rfl, ?_⟩
            · rw [hsurv]
              rw [List.find?_cons_of_pos _ (by
                simp only [decide_eq_true_eq]
                exact le_refl cc)]
            · exact ih1 hmr
        · -- the maximum lies further right
          have hmx : max cc (maxScore track rest) = maxScore track rest :=
            max_eq_right (le_of_lt hmr)
          rw [hmx]
          constructor
          · intro hle
            linarith
          · intro _
            obtain ⟨cbest, hfind, hcbest, hres⟩ := ih2 hmr
            refine ⟨cbest, ?_, hcbest, hres⟩
            rw [hsurv]
            rw [List.find?_cons_of_neg _ (by
              simp only [decide_eq_true_eq, not_le]
              show cc < maxScore track rest
              exact hmr)]
            exact hfind
      · rw [if_neg hcc]
        push_neg at hcc
        obtain ⟨ih1, ih2⟩ := ih b s hs (fun x hx => hart x (by simp [hx]))
        constructor
        · intro hle
          exact ih1 (le_trans (le_max_right cc _) hle)
        · intro hlt
          have hmr : s < maxScore track rest := by
            rcases max_cases cc (maxScore track rest) with ⟨he, -⟩ | ⟨he, -⟩
            · rw [he] at hlt; linarith
            · rw [he] at hlt; exact hlt
          have hmx : max cc (maxScore track rest) = maxScore track rest := by
            rcases max_cases cc (maxScore track rest) with ⟨he, hge⟩ | ⟨he, -⟩
            · rw [he]; linarith
            · exact he
          rw [hmx]
          obtain ⟨cbest, hfind, hcbest, hres⟩ := ih2 hmr
          refine ⟨cbest, ?_, hcbest, hres⟩
          rw [hsurv]
          rw [List.find?_cons_of_neg _ (by
            simp only [decide_eq_true_eq, not_le]
            show cc < maxScore track rest
            linarith)]
          exact hfind

/-- What `search_youtube_music` returns, for a track with positive
duration, a nonempty result list, and no surviving candidate with an
empty artist list: `Accepted` with the first maximal survivor and the
maximal combined score exactly when that score exceeds 0.6, and
`Rejected below_threshold` otherwise. -/
theorem search_spec (track : Track) (results : List Candidate)
    (hd : 0 < track.duration_ms) (hne : results ≠ [])
    (hart : survivorsHaveArtists track results) :
    ((0.6 < maxScore track results →
       ∃ c, firstBest track results = some c ∧
         search_youtube_music track results =
           .Accepted c.videoId (maxScore track results)) ∧
     (maxScore track results ≤ 0.6 →
       search_youtube_music track results = .Rejected .below_threshold)) := by
  obtain ⟨l1, l2⟩ := searchLoop_spec track hd results none 0 (le_refl 0) hart
  unfold search_youtube_music
  rw [if_neg hne]
  rcases le_or_lt (maxScore track results) 0 with hm | hm
  · have h0 : maxScore track results = 0 := le_antisymm hm (maxScore_nonneg _ _)
    rw [l1 (by rw [h0])]
    constructor
    · intro h6
      rw [h0] at h6
      norm_num at h6
    · intro _
      rfl
  · obtain ⟨c, hfind, hc, hres⟩ := l2 hm
    rw [hres]
    constructor
    · intro h6
      refine ⟨c, hfind, ?_⟩
      simp only
      rw [if_pos h6]
    · intro h6
      simp only
      rw [if_neg (not_lt.mpr h6)]

/-- One survivor step of the candidate loop, as an equation. -/
theorem searchLoop_step (track : Track) (ctitle : String) (a0 : Artist)
    (arest : List Artist) (ds : Nat) (cv : String) (rest : List Candidate)
    (b : Option (Candidate × ℚ)) (s : ℚ)
    (hd0 : track.duration_ms ≠ 0)
    (hdur : ¬ (0.15 : ℚ) <
      |(ds : ℚ) * 1000 - (track.duration_ms : ℚ)| / (track.duration_ms : ℚ)) :
    searchLoop track (⟨some ctitle, some (a0 :: arest), some ds, cv⟩ :: rest) b s =
      (if s < combinedScore track ⟨some ctitle, some (a0 :: arest), some ds, cv⟩
       then searchLoop track rest
         (some (⟨some ctitle, some (a0 :: arest), some ds, cv⟩,
           combinedScore track ⟨some ctitle, some (a0 :: arest), some ds, cv⟩))
         (combinedScore track ⟨some ctitle, some (a0 :: arest), some ds, cv⟩)
       else searchLoop track rest b s) := by
  have hcs : combinedScore track ⟨some ctitle, some (a0 :: arest), some ds, cv⟩ =
      similarity_ratio track.title ctitle * 0.5 +
        ((arest.map (fun ar => similarity_ratio track.artist ar.name)).foldl max
          (similarity_ratio track.artist a0.name)) * 0.5 := rfl
  conv_lhs => rw [searchLoop]
  simp only
  rw [if_neg hd0, if_neg hdur]
  simp only [← hcs]

/-- The loop raises `ValueError` at a surviving candidate whose artist
list is empty (`max()` over an empty sequence, line 116-119). -/
theorem searchLoop_step_value_error (track : Track) (ctitle : String)
    (ds : Nat) (cv : String) (rest : List Candidate)
    (b : Option (Candidate × ℚ)) (s : ℚ)
    (hd0 : track.duration_ms ≠ 0)
    (hdur : ¬ (0.15 : ℚ) <
      |(ds : ℚ) * 1000 - (track.duration_ms : ℚ)| / (track.duration_ms : ℚ)) :
    searchLoop track (⟨some ctitle, some [], some ds, cv⟩ :: rest) b s =
      .error .value_error := by
  conv_lhs => rw [searchLoop]
  simp only
  rw [if_neg hd0, if_neg hdur]

theorem sampleTrack_duration : sampleTrack.duration_ms = 1000 := rfl

theorem sample_dur_ok : ¬ (0.15 : ℚ) <
    |((1 : Nat) : ℚ) * 1000 - (sampleTrack.duration_ms : ℚ)| /
      (sampleTrack.duration_ms : ℚ) := by
  rw [sampleTrack_duration]
  push_cast
  norm_num

theorem param_combined (t : Track) (ht : t.title = "a") (ha : t.artist = "b") :
    combinedScore t sampleCand = 1 := by
  have h : combinedScore t sampleCand =
      similarity_ratio t.title "a" * 0.5 +
        (([] : List Artist).map
          (fun ar => similarity_ratio t.artist ar.name)).foldl max
          (similarity_ratio t.artist "b") * 0.5 := rfl
  rw [h, ht, ha, similarity_self, similarity_self]
  norm_num

theorem param_pass (t : Track) (hdm : t.duration_ms = 1000) :
    candidatePasses t sampleCand = true := by
  have h : candidatePasses t sampleCand =
      decide (|((1 : Nat) : ℚ) * 1000 - (t.duration_ms : ℚ)| /
        (t.duration_ms : ℚ) ≤ 0.15) := rfl
  rw [h, decide_eq_true_eq, hdm]
  push_cast
  norm_num

theorem param_survivors (t : Track) (hdm : t.duration_ms = 1000) :
    survivors t [sampleCand] = [sampleCand] := by
  simp [survivors, List.filter_cons, param_pass t hdm]

theorem param_maxScore (t : Track) (ht : t.title = "a") (ha : t.artist = "b")
    (hdm : t.duration_ms = 1000) : maxScore t [sampleCand] = 1 := by
  simp only [maxScore, param_survivors t hdm, List.map_cons, List.map_nil,
    List.foldr_cons, List.foldr_nil, param_combined t ht ha]
  norm_num

theorem param_artists (t : Track) : survivorsHaveArtists t [sampleCand] := by
  intro c hc hp
  simp only [List.mem_singleton] at hc
  subst hc
  simp [sampleCand]

/-- Any track titled "a" by artist "b" of 1000 ms accepts `sampleCand`
with score 1 (its source id plays no role in matching). -/
theorem param_search (t : Track) (ht : t.title = "a") (ha : t.artist = "b")
    (hdm : t.duration_ms = 1000) :
    search_youtube_music t [sampleCand] = .Accepted "v1" 1 := by
  obtain ⟨h1, -⟩ := search_spec t [sampleCand] (by omega)
    (by simp) (param_artists t)
  rw [param_maxScore t ht ha hdm] at h1
  obtain ⟨c, hfind, hsearch⟩ := h1 (by norm_num)
  have hfb : firstBest t [sampleCand] = some sampleCand := by
    unfold firstBest
    rw [param_survivors t hdm, param_maxScore t ht ha hdm,
      List.find?_cons_of_pos _ (by
        simp only [decide_eq_true_eq, param_combined t ht ha]
        exact le_refl 1)]
  rw [hfb] at hfind
  obtain rfl : sampleCand = c := by
    injection hfind
  exact hsearch

theorem sample_combined : combinedScore sampleTrack sampleCand = 1 :=
  param_combined sampleTrack rfl rfl

theorem sample_pass : candidatePasses sampleTrack sampleCand = true :=
  param_pass sampleTrack rfl

theorem sample_artists : survivorsHaveArtists sampleTrack [sampleCand] :=
  param_artists sampleTrack

/-- The sample search accepts the sample candidate with score 1. -/
theorem sample_search :
    search_youtube_music sampleTrack [sampleCand] = .Accepted "v1" 1 :=
  param_search sampleTrack rfl rfl rfl

/-- So does the search for the second sample track. -/
theorem sampleB_search :
    search_youtube_music sampleTrackB [sampleCand] = .Accepted "v1" 1 :=
  param_search sampleTrackB rfl rfl rfl

/-- Claim C1, amended: for every track with positive `duration_ms` and
every nonempty candidate list in which every surviving candidate has a
nonempty artist list, the Match Selector returns `Accepted` exactly
when the maximum combined score over the survivors exceeds 0.6, the
accepted candidate is the first survivor attaining that maximum (the
first-seen tie-break), with the maximum as its score; otherwise it
rejects with reason `below_threshold`.  (As stated over all candidate
lists the claim fails: the empty list is rejected with `no_results`,
and a surviving candidate with an empty artist list raises inside
`max()` so the whole search is rejected even when some survivor scores
above 0.6; see the counterexample.) -/
theorem C1_selector_accepts_strict_max (track : Track)
    (results : List Candidate) (hd : 0 < track.duration_ms)
    (hne : results ≠ []) (hart : survivorsHaveArtists track results) :
    ((0.6 < maxScore track results →
       ∃ c, firstBest track results = some c ∧
         search_youtube_music track results =
           .Accepted c.videoId (maxScore track results)) ∧
     (maxScore track results ≤ 0.6 →
       search_youtube_music track results = .Rejected .below_threshold)) :=
  search_spec track results hd hne hart

/-- Witness for claim C1's amended theorem at the sample input. -/
theorem C1_witness :
    ((0.6 < maxScore sampleTrack [sampleCand] →
       ∃ c, firstBest sampleTrack [sampleCand] = some c ∧
         search_youtube_music sampleTrack [sampleCand] =
           .Accepted c.videoId (maxScore sampleTrack [sampleCand])) ∧
     (maxScore sampleTrack [sampleCand] ≤ 0.6 →
       search_youtube_music sampleTrack [sampleCand] =
         .Rejected .below_threshold)) :=
  C1_selector_accepts_strict_max sampleTrack [sampleCand] (by decide)
    (by simp) sample_artists

/-- Counterexample to claim C1 as frozen: on the empty candidate list
the selector rejects with `no_results`, not `below_threshold`; and on
`[sampleCand, sampleCandNoArtists]` the maximum combined score over
survivors is 1 > 0.6 yet the selector rejects (the empty artist list of
the second survivor raises `ValueError` inside the loop, caught by the
handler), instead of accepting the maximal candidate. -/
theorem C1_counterexample :
    search_youtube_music sampleTrack [] = .Rejected .no_results ∧
    RejectReason.no_results ≠ RejectReason.below_threshold ∧
    0.6 < maxScore sampleTrack [sampleCand, sampleCandNoArtists] ∧
    search_youtube_music sampleTrack [sampleCand, sampleCandNoArtists] =
      .Rejected .search_error := by
  refine ⟨rfl, by decide, ?_, ?_⟩
  · have hpassNA : candidatePasses sampleTrack sampleCandNoArtists = true := by
      have h : candidatePasses sampleTrack sampleCandNoArtists =
          decide (|((1 : Nat) : ℚ) * 1000 - (sampleTrack.duration_ms : ℚ)| /
            (sampleTrack.duration_ms : ℚ) ≤ 0.15) := rfl
      rw [h, decide_eq_true_eq, sampleTrack_duration]
      push_cast
      norm_num
    have hsurv : survivors sampleTrack [sampleCand, sampleCandNoArtists] =
        [sampleCand, sampleCandNoArtists] := by
      simp [survivors, List.filter_cons, sample_pass, hpassNA]
    have hcNA : combinedScore sampleTrack sampleCandNoArtists = 0 := rfl
    simp only [maxScore, hsurv, List.map_cons, List.map_nil, List.foldr_cons,
      List.foldr_nil, sample_combined, hcNA]
    norm_num
  · have hstep1 := searchLoop_step sampleTrack "a" ⟨"b"⟩ [] 1 "v1"
      [sampleCandNoArtists] none 0 (by decide) sample_dur_ok
    have hstep2 := searchLoop_step_value_error sampleTrack "a" 1 "v3" []
      (some (sampleCand, combinedScore sampleTrack sampleCand))
      (combinedScore sampleTrack sampleCand) (by decide) sample_dur_ok
    have hlit1 : (⟨some "a", some [⟨"b"⟩], some 1, "v1"⟩ : Candidate) =
        sampleCand := rfl
    have hlit2 : (⟨some "a", some [], some 1, "v3"⟩ : Candidate) =
        sampleCandNoArtists := rfl
    rw [hlit1] at hstep1
    rw [hlit2] at hstep2
    rw [if_pos (by rw [sample_combined]; norm_num)] at hstep1
    unfold search_youtube_music
    rw [if_neg (by simp)]
    rw [hstep1, hstep2]

/-!
## Claim C2: accepted candidates passed the duration filter
-/

/-- Loop invariant: a best match held in the loop state either was
there at entry or is a passing candidate of the processed list. -/
theorem searchLoop_best_mem (track : Track) :
    ∀ (l : List Candidate) (b : Option (Candidate × ℚ)) (s : ℚ)
      (res : Option (Candidate × ℚ) × ℚ),
    searchLoop track l b s = .ok res →
    ∀ c q, res.1 = some (c, q) →
      b = some (c, q) ∨ (c ∈ l ∧ candidatePasses track c = true) := by
  intro l
  induction l with
  | nil =>
    intro b s res hres c q hc
    simp only [searchLoop] at hres
    injection hres with hres
    rw [← hres] at hc
    exact Or.inl hc
  | cons c0 rest ih =>
    intro b s res hres c q hc
    obtain ⟨oct, oca, ocd, cv⟩ := c0
    rcases oct with _ | ctitle
    · have hloop : searchLoop track (⟨none, oca, ocd, cv⟩ :: rest) b s =
          searchLoop track rest b s := by
        cases oca <;> cases ocd <;> rfl
      rw [hloop] at hres
      rcases ih b s res hres c q hc with h | h
      · exact Or.inl h
      · exact Or.inr ⟨by simp [h.1], h.2⟩
    rcases oca with _ | cartists
    · have hloop : searchLoop track (⟨some ctitle, none, ocd, cv⟩ :: rest) b s =
          searchLoop track rest b s := by
        cases ocd <;> rfl
      rw [hloop] at hres
      rcases ih b s res hres c q hc with h | h
      · exact Or.inl h
      · exact Or.inr ⟨by simp [h.1], h.2⟩
    rcases ocd with _ | ds
    · have hloop : searchLoop track
          (⟨some ctitle, some cartists, none, cv⟩ :: rest) b s =
          searchLoop track rest b s := rfl
      rw [hloop] at hres
      rcases ih b s res hres c q hc with h | h
      · exact Or.inl h
      · exact Or.inr ⟨by simp [h.1], h.2⟩
    by_cases hz : track.duration_ms = 0
    · have hloop : searchLoop track
          (⟨some ctitle, some cartists, some ds, cv⟩ :: rest) b s =
          .error .zero_division := by
        conv_lhs => rw [searchLoop]
        simp only
        rw [if_pos hz]
      rw [hloop] at hres
      exact absurd hres (by simp)
    by_cases hdur : (0.15 : ℚ) <
        |(ds : ℚ) * 1000 - (track.duration_ms : ℚ)| / (track.duration_ms : ℚ)
    · have hloop : searchLoop track
          (⟨some ctitle, some cartists, some ds, cv⟩ :: rest) b s =
          searchLoop track rest b s := by
        conv_lhs => rw [searchLoop]
        simp only
        rw [if_neg hz, if_pos hdur]
      rw [hloop] at hres
      rcases ih b s res hres c q hc with h | h
      · exact Or.inl h
      · exact Or.inr ⟨by simp [h.1], h.2⟩
    · have hpass : candidatePasses track ⟨some ctitle, some cartists, some ds, cv⟩ =
          true := by
        unfold candidatePasses
        simp only [decide_eq_true_eq]
        linarith
      rcases cartists with _ | ⟨a0, arest⟩
      · have hloop : searchLoop track
            (⟨some ctitle, some [], some ds, cv⟩ :: rest) b s =
            .error .value_error :=
          searchLoop_step_value_error track ctitle ds cv rest b s hz hdur
        rw [hloop] at hres
        exact absurd hres (by simp)
      · have hloop := searchLoop_step track ctitle a0 arest ds cv rest b s hz hdur
        rw [hloop] at hres
        split at hres
        · rcases ih _ _ res hres c q hc with h | h
          · injection h with h
            injection h with h1 h2
            exact Or.inr ⟨by simp [← h1], by rw [← h1]; exact hpass⟩
          · exact Or.inr ⟨by simp [h.1], h.2⟩
        · rcases ih b s res hres c q hc with h | h
          · exact Or.inl h
          · exact Or.inr ⟨by simp [h.1], h.2⟩

/-- Claim C2: for every track with positive `duration_ms`, whenever the
Match Selector accepts, the accepted media id belongs to a candidate of
the input list that carries all required fields and whose duration
(seconds, converted to ms) differs from the track's by at most 15% of
the track's duration; filtered-out candidates can never be the
result. -/
theorem C2_accepted_within_duration_tolerance (track : Track)
    (results : List Candidate) (v : String) (q : ℚ)
    (hd : 0 < track.duration_ms)
    (hacc : search_youtube_music track results = .Accepted v q) :
    ∃ c ∈ results, c.videoId = v ∧ candidatePasses track c = true ∧
      c.title.isSome ∧ c.artists.isSome ∧
      ∃ ds, c.duration_seconds = some ds ∧
        |(ds : ℚ) * 1000 - (track.duration_ms : ℚ)| ≤
          0.15 * (track.duration_ms : ℚ) := by
  unfold search_youtube_music at hacc
  by_cases hne : results = []
  · rw [if_pos hne] at hacc
    exact absurd hacc (by simp)
  rw [if_neg hne] at hacc
  rcases hloopres : searchLoop track results none 0 with e | res
  · rw [hloopres] at hacc
    rcases e <;> exact absurd hacc (by simp)
  · rw [hloopres] at hacc
    obtain ⟨ob, bs⟩ := res
    rcases ob with _ | ⟨cb, qb⟩
    · exact absurd hacc (by simp)
    simp only at hacc
    split at hacc
    · injection hacc with h1 h2
      have hmem := searchLoop_best_mem track results none 0 (some (cb, qb), bs)
        hloopres cb qb rfl
      rcases hmem with h | ⟨hmemc, hpass⟩
      · exact absurd h (by simp)
      refine ⟨cb, hmemc, h1, hpass, ?_⟩
      unfold candidatePasses at hpass
      rcases hct : cb.title with _ | ctitle <;> rw [hct] at hpass
      · simp at hpass
      rcases hca : cb.artists with _ | cartists <;> rw [hca] at hpass
      · simp at hpass
      rcases hcd : cb.duration_seconds with _ | ds <;> rw [hcd] at hpass
      · simp at hpass
      simp only [decide_eq_true_eq] at hpass
      refine ⟨by simp, by simp [hca], ds, rfl, ?_⟩
      have hdq : (0 : ℚ) < (track.duration_ms : ℚ) := by exact_mod_cast hd
      rw [div_le_iff₀ hdq] at hpass
      linarith
    · exact absurd hacc (by simp)

/-- Witness for claim C2's theorem at the sample input. -/
theorem C2_witness :
    ∃ c ∈ [sampleCand], c.videoId = "v1" ∧
      candidatePasses sampleTrack c = true ∧
      c.title.isSome ∧ c.artists.isSome ∧
      ∃ ds, c.duration_seconds = some ds ∧
        |(ds : ℚ) * 1000 - (sampleTrack.duration_ms : ℚ)| ≤
          0.15 * (sampleTrack.duration_ms : ℚ) :=
  C2_accepted_within_duration_tolerance sampleTrack [sampleCand] "v1" 1
    (by decide) sample_search

/-!
## Claim C3: zero track duration
-/

/-- With `track.duration_ms = 0` the loop raises `ZeroDivisionError` at
the first candidate that has all required fields (the division at line
109); with no complete candidate it finishes with its state
unchanged. -/
theorem searchLoop_zero (track : Track) (hz : track.duration_ms = 0) :
    ∀ (l : List Candidate) (b : Option (Candidate × ℚ)) (s : ℚ),
    searchLoop track l b s =
      (if l.any candidateComplete then .error .zero_division else .ok (b, s)) := by
  intro l
  induction l with
  | nil =>
    intro b s
    simp [searchLoop]
  | cons c0 rest ih =>
    intro b s
    obtain ⟨oct, oca, ocd, cv⟩ := c0
    rcases oct with _ | ctitle
    · have hloop : searchLoop track (⟨none, oca, ocd, cv⟩ :: rest) b s =
          searchLoop track rest b s := by
        cases oca <;> cases ocd <;> rfl
      rw [hloop, ih b s]
      simp [candidateComplete]
    rcases oca with _ | cartists
    · have hloop : searchLoop track (⟨some ctitle, none, ocd, cv⟩ :: rest) b s =
          searchLoop track rest b s := by
        cases ocd <;> rfl
      rw [hloop, ih b s]
      simp [candidateComplete]
    rcases ocd with _ | ds
    · have hloop : searchLoop track
          (⟨some ctitle, some cartists, none, cv⟩ :: rest) b s =
          searchLoop track rest b s := rfl
      rw [hloop, ih b s]
      simp [candidateComplete]
    · have hloop : searchLoop track
          (⟨some ctitle, some cartists, some ds, cv⟩ :: rest) b s =
          .error .zero_division := by
        conv_lhs => rw [searchLoop]
        simp only
        rw [if_pos hz]
      rw [hloop]
      simp [candidateComplete]

/-- Claim C3, amended: with `track.duration_ms = 0` the Match Selector
rejects every candidate list (it never accepts, and the raised
`ZeroDivisionError` is caught by the handler): the reason is
`invalid_duration` exactly when some candidate carries all required
fields (only then is the division at line 109 reached); an empty
candidate list is rejected with `no_results` before any division, and a
nonempty list whose candidates all miss required fields is rejected
with `below_threshold`.  (As frozen — reason `invalid_duration` for
every candidate list — the claim fails on those two other paths; see
the counterexample.) -/
theorem C3_zero_duration_rejects (track : Track) (results : List Candidate)
    (hz : track.duration_ms = 0) :
    search_youtube_music track results = .Rejected
      (if results = [] then .no_results
       else if results.any candidateComplete then .invalid_duration
       else .below_threshold) := by
  unfold search_youtube_music
  by_cases hne : results = []
  · rw [if_pos hne, if_pos hne]
  · rw [if_neg hne, if_neg hne, searchLoop_zero track hz results none 0]
    by_cases hany : results.any candidateComplete
    · rw [if_pos hany, if_pos hany]
    · rw [if_neg hany, if_neg hany]

/-- Counterexample to claim C3 as frozen: with zero track duration the
selector's rejection reason is `no_results` on the empty list and
`below_threshold` on a list whose only candidate misses the `title`
field — in neither case `invalid_duration`. -/
theorem C3_counterexample :
    search_youtube_music sampleTrackZero [] = .Rejected .no_results ∧
    search_youtube_music sampleTrackZero [sampleCandNoTitle] =
      .Rejected .below_threshold ∧
    RejectReason.no_results ≠ RejectReason.invalid_duration ∧
    RejectReason.below_threshold ≠ RejectReason.invalid_duration := by
  refine ⟨rfl, ?_, by decide, by decide⟩
  have h := C3_zero_duration_rejects sampleTrackZero [sampleCandNoTitle] rfl
  simpa [sampleCandNoTitle, candidateComplete] using h

/-- Witness for claim C3's amended theorem: with zero duration and one
complete candidate the selector rejects with `invalid_duration`. -/
theorem C3_witness :
    search_youtube_music sampleTrackZero [sampleCand] =
      .Rejected (if ([sampleCand] : List Candidate) = [] then .no_results
        else if ([sampleCand] : List Candidate).any candidateComplete
          then .invalid_duration
        else .below_threshold) :=
  C3_zero_duration_rejects sampleTrackZero [sampleCand] rfl

/-!
## The orchestrator: groundwork
-/

/-- The track-adding fold of `update_youtube_playlist` only appends
`addTracks` events for ids outside the snapshot; store and clock are
untouched. -/
theorem update_fold_events (env : Env) (playlist_id : String)
    (current : List String) :
    ∀ (tracks : List Track) (s : MigState),
    ∃ delta,
      (tracks.foldl (fun st track =>
        match (search_youtube_music track (env.ytSearch track)).toVideoId with
        | some video_id =>
          if video_id ≠ "" ∧ video_id ∉ current then
            { st with events := st.events ++ [Event.addTracks playlist_id video_id] }
          else st
        | none => st) s) =
        { s with events := s.events ++ delta } ∧
      ∀ e ∈ delta, ∃ vid, e = Event.addTracks playlist_id vid ∧
        vid ∉ current ∧ vid ≠ "" := by
  intro tracks
  induction tracks with
  | nil =>
    intro s
    exact ⟨[], by simp, by simp⟩
  | cons t rest ih =>
    intro s
    simp only [List.foldl_cons]
    rcases hv : (search_youtube_music t (env.ytSearch t)).toVideoId with _ | vid
    · obtain ⟨delta, h1, h2⟩ := ih s
      exact ⟨delta, h1, h2⟩
    · dsimp only
      by_cases hcond : vid ≠ "" ∧ vid ∉ current
      · rw [if_pos hcond]
        obtain ⟨delta, h1, h2⟩ := ih
          { s with events := s.events ++ [Event.addTracks playlist_id vid] }
        refine ⟨Event.addTracks playlist_id vid :: delta, ?_, ?_⟩
        · rw [h1]
          simp
        · intro e he
          rcases List.mem_cons.mp he with h | h
          · exact ⟨vid, h, hcond.2, hcond.1⟩
          · exact h2 e h
      · rw [if_neg hcond]
        obtain ⟨delta, h1, h2⟩ := ih s
        exact ⟨delta, h1, h2⟩

/-- The track-adding fold of the create path of `migrate_playlist`
only appends `addTracks` events for the new playlist; store and clock
are untouched. -/
theorem create_fold_events (env : Env) (youtube_id : String) :
    ∀ (tracks : List Track) (s : MigState),
    ∃ delta,
      (tracks.foldl (fun st track =>
        match (search_youtube_music track (env.ytSearch track)).toVideoId with
        | some video_id =>
          if video_id ≠ "" then
            { st with events := st.events ++ [Event.addTracks youtube_id video_id] }
          else st
        | none => st) s) =
        { s with events := s.events ++ delta } ∧
      ∀ e ∈ delta, ∃ vid, e = Event.addTracks youtube_id vid := by
  intro tracks
  induction tracks with
  | nil =>
    intro s
    exact ⟨[], by simp, by simp⟩
  | cons t rest ih =>
    intro s
    simp only [List.foldl_cons]
    rcases hv : (search_youtube_music t (env.ytSearch t)).toVideoId with _ | vid
    · obtain ⟨delta, h1, h2⟩ := ih s
      exact ⟨delta, h1, h2⟩
    · dsimp only
      by_cases hcond : vid ≠ ""
      · rw [if_pos hcond]
        obtain ⟨delta, h1, h2⟩ := ih
          { s with events := s.events ++ [Event.addTracks youtube_id vid] }
        refine ⟨Event.addTracks youtube_id vid :: delta, ?_, ?_⟩
        · rw [h1]
          simp
        · intro e he
          rcases List.mem_cons.mp he with h | h
          · exact ⟨vid, h⟩
          · exact h2 e h
      · rw [if_neg hcond]
        obtain ⟨delta, h1, h2⟩ := ih s
        exact ⟨delta, h1, h2⟩

/-- Updating an association list in place: the lookup finds the new
entry, provided the key was present. -/
theorem storeLookup_map_upd (sid : String) (e : StoreEntry) :
    ∀ (l : List (String × StoreEntry)),
    (l.find? (fun p => p.1 == sid)).isSome →
    storeLookup (l.map (fun p => if p.1 == sid then (sid, e) else p)) sid =
      some e := by
  intro l
  induction l with
  | nil => intro hf; simp at hf
  | cons p rest ih =>
    intro hf
    rw [List.map_cons]
    by_cases hp : (p.1 == sid) = true
    · rw [if_pos hp]
      unfold storeLookup
      simp [List.find?_cons]
    · rw [if_neg hp]
      have hp2 : (p.1 == sid) = false := by
        simpa using hp
      unfold storeLookup
      simp only [List.find?_cons, hp2]
      have hf2 : (rest.find? (fun p => p.1 == sid)).isSome := by
        simp only [List.find?_cons, hp2] at hf
        exact hf
      exact ih hf2

/-- Writing an entry makes it the one the lookup finds. -/
theorem storeLookup_storePut (store : List (String × StoreEntry))
    (sid : String) (e : StoreEntry) :
    storeLookup (storePut store sid e) sid = some e := by
  unfold storePut
  split
  · rename_i hf
    exact storeLookup_map_upd sid e store hf
  · rename_i hf
    unfold storeLookup
    have hnone : store.find? (fun p => p.1 == sid) = none := by
      rcases h : store.find? (fun p => p.1 == sid) with _ | v
      · exact h
      · rw [h] at hf
        simp at hf
    rw [List.find?_append, hnone]
    simp [List.find?_cons]

/-- What the update path of `migrate_playlist` computes, given the
stored entry: the stored id is returned and the stored playlist is
updated, unless the source fetch raises. -/
theorem migrate_update_eq (env : Env) (sid : String) (s : MigState)
    (e : StoreEntry) (h : storeLookup s.store sid = some e) :
    migrate_playlist env sid true s =
      (match env.spotifyPlaylist sid with
       | none => (none, s)
       | some pl =>
         (some e.youtube_id,
           update_youtube_playlist env e.youtube_id pl.tracks s)) := by
  unfold migrate_playlist migrate_playlist_body
  rw [h]
  rcases env.spotifyPlaylist sid with _ | pl <;> rfl

/-- The update pass of `migrate_playlist` (known source id,
`update_existing = true`): the store and clock are untouched and the
only new events are `addTracks` on the stored destination id. -/
theorem migrate_update_shape (env : Env) (sid : String) (s : MigState)
    (e : StoreEntry) (h : storeLookup s.store sid = some e) :
    (migrate_playlist env sid true s).2.store = s.store ∧
    (migrate_playlist env sid true s).2.clock = s.clock ∧
    ∃ delta, (migrate_playlist env sid true s).2.events = s.events ++ delta ∧
      ∀ ev ∈ delta, ∃ vid, ev = Event.addTracks e.youtube_id vid := by
  have heq := migrate_update_eq env sid s e h
  rcases hpl : env.spotifyPlaylist sid with _ | pl
  · rw [hpl] at heq
    simp only [heq]
    exact ⟨trivial, trivial, [], by simp, by simp⟩
  · rw [hpl] at heq
    simp only [heq]
    rcases hyt : env.ytPlaylistTracks e.youtube_id with _ | current
    · have hupd : update_youtube_playlist env e.youtube_id pl.tracks s = s := by
        unfold update_youtube_playlist
        rw [hyt]
      rw [hupd]
      exact ⟨rfl, rfl, [], by simp, by simp⟩
    · obtain ⟨delta, h1, h2⟩ := update_fold_events env e.youtube_id current
        pl.tracks s
      have hupd : update_youtube_playlist env e.youtube_id pl.tracks s =
          { s with events := s.events ++ delta } := by
        unfold update_youtube_playlist
        rw [hyt]
        exact h1
      rw [hupd]
      refine ⟨rfl, rfl, delta, rfl, fun ev hev => ?_⟩
      obtain ⟨vid, hv1, -, -⟩ := h2 ev hev
      exact ⟨vid, hv1⟩

/-!
## Claim C4: repeated migration with update disabled is idempotent
-/

/-- Claim C4: for a source playlist id already in the state store,
calling migrate with `update_existing = false` returns the stored
destination id and leaves the state — in particular the event trace —
unchanged; calling it twice therefore returns the same destination id
both times and the second call performs no destination-catalog writes
(no `createPlaylist`, no `addTracks`, indeed no events at all). -/
theorem C4_migrate_twice_no_update (env : Env) (sid : String) (s : MigState)
    (e : StoreEntry) (h : storeLookup s.store sid = some e) :
    migrate_playlist env sid false s = (some e.youtube_id, s) ∧
    migrate_playlist env sid false ((migrate_playlist env sid false s).2) =
      (some e.youtube_id, s) := by
  have h1 : migrate_playlist env sid false s = (some e.youtube_id, s) := by
    unfold migrate_playlist migrate_playlist_body
    rw [h]
    rfl
  refine ⟨h1, ?_⟩
  rw [h1]
  exact h1

/-- Witness for claim C4 at the sample store. -/
theorem C4_witness :
    migrate_playlist sampleEnv "sp1" false sampleState =
      (some sampleEntry.youtube_id, sampleState) ∧
    migrate_playlist sampleEnv "sp1" false
        ((migrate_playlist sampleEnv "sp1" false sampleState).2) =
      (some sampleEntry.youtube_id, sampleState) :=
  C4_migrate_twice_no_update sampleEnv "sp1" sampleState sampleEntry rfl

/-!
## Claim C5: the update pass never re-adds a present id
-/

/-- Claim C5: migrating a known source playlist id with
`update_existing = true` never issues an `addTracks` call for a media
id already in the destination track-id set fetched at the start of the
update. -/
theorem C5_update_never_readds (env : Env) (sid : String) (s : MigState)
    (e : StoreEntry) (current : List String)
    (h1 : storeLookup s.store sid = some e)
    (h2 : env.ytPlaylistTracks e.youtube_id = some current) :
    ∀ ev ∈ (migrate_playlist env sid true s).2.events,
      ev ∈ s.events ∨
        ∃ vid, ev = Event.addTracks e.youtube_id vid ∧ vid ∉ current := by
  intro ev hev
  have heq := migrate_update_eq env sid s e h1
  rcases hpl : env.spotifyPlaylist sid with _ | pl
  · rw [hpl] at heq
    simp only [heq] at hev
    exact Or.inl hev
  · rw [hpl] at heq
    simp only [heq] at hev
    obtain ⟨delta, hd1, hd2⟩ := update_fold_events env e.youtube_id current
      pl.tracks s
    have hupd : update_youtube_playlist env e.youtube_id pl.tracks s =
        { s with events := s.events ++ delta } := by
      unfold update_youtube_playlist
      rw [h2]
      exact hd1
    rw [hupd] at hev
    simp only at hev
    rcases List.mem_append.mp hev with h | h
    · exact Or.inl h
    · obtain ⟨vid, hv1, hv2, -⟩ := hd2 ev h
      exact Or.inr ⟨vid, hv1, hv2⟩

/-- The concrete update pass of the counterexample, fully computed:
one track is matched and added, and nothing else happens. -/
theorem sample_update_run :
    migrate_playlist sampleEnv "sp1" true sampleState =
      (some "yt1",
        { sampleState with events := [Event.addTracks "yt1" "v1"] }) := by
  have heq := migrate_update_eq sampleEnv "sp1" sampleState sampleEntry rfl
  rw [show sampleEnv.spotifyPlaylist "sp1" = some ⟨"P1", [sampleTrack]⟩ from rfl]
    at heq
  simp only at heq
  have hupd : update_youtube_playlist sampleEnv sampleEntry.youtube_id
      [sampleTrack] sampleState =
      { sampleState with events := [Event.addTracks "yt1" "v1"] } := by
    unfold update_youtube_playlist
    rw [show sampleEnv.ytPlaylistTracks sampleEntry.youtube_id = some []
      from rfl]
    simp only [List.foldl_cons, List.foldl_nil]
    rw [show sampleEnv.ytSearch sampleTrack = [sampleCand] from rfl,
      sample_search]
    simp only [MatchResult.toVideoId]
    rw [if_pos ⟨by decide, by simp⟩]
    rfl
  rw [hupd] at heq
  exact heq

/-- Witness for claim C5 at the sample environment, instantiated at
the one event the sample update pass emits. -/
theorem C5_witness :
    Event.addTracks "yt1" "v1" ∈ sampleState.events ∨
      ∃ vid, Event.addTracks "yt1" "v1" =
          Event.addTracks sampleEntry.youtube_id vid ∧
        vid ∉ ([] : List String) :=
  C5_update_never_readds sampleEnv "sp1" sampleState sampleEntry [] rfl rfl
    (Event.addTracks "yt1" "v1") (by rw [sample_update_run]; simp)

/-!
## Claim C6: the update pass does not touch the store
-/

/-- Claim C6, amended: during an update pass of migrate
(`update_existing = true` on a known source playlist id) the state
store is NOT modified — the entry keeps its creation-time
`last_updated` — and it is NOT persisted: every new event is an
`addTracks`, never a `saveStore`.  (The frozen claim — `last_updated`
bumped and the store saved whenever tracks are added — is false on the
code: `migrate_playlist`'s update branch, lines 225-229, neither writes
the store nor calls `_save_playlists_store`; see the counterexample.) -/
theorem C6_update_pass_leaves_store (env : Env) (sid : String)
    (s : MigState) (e : StoreEntry)
    (h : storeLookup s.store sid = some e) :
    (migrate_playlist env sid true s).2.store = s.store ∧
    storeLookup (migrate_playlist env sid true s).2.store sid = some e ∧
    ∀ ev ∈ (migrate_playlist env sid true s).2.events,
      ev ∈ s.events ∨ ∃ vid, ev = Event.addTracks e.youtube_id vid := by
  obtain ⟨h1, -, delta, h3, h4⟩ := migrate_update_shape env sid s e h
  refine ⟨h1, by rw [h1]; exact h, ?_⟩
  intro ev hev
  rw [h3] at hev
  rcases List.mem_append.mp hev with hm | hm
  · exact Or.inl hm
  · exact Or.inr (h4 ev hm)

/-- Witness for claim C6's amended theorem at the sample store. -/
theorem C6_witness :
    (migrate_playlist sampleEnv "sp1" true sampleState).2.store =
      sampleState.store ∧
    storeLookup (migrate_playlist sampleEnv "sp1" true sampleState).2.store
      "sp1" = some sampleEntry ∧
    ∀ ev ∈ (migrate_playlist sampleEnv "sp1" true sampleState).2.events,
      ev ∈ sampleState.events ∨
        ∃ vid, ev = Event.addTracks sampleEntry.youtube_id vid :=
  C6_update_pass_leaves_store sampleEnv "sp1" sampleState sampleEntry rfl

/-- Counterexample to claim C6 as frozen: in the sample update pass a
track IS added (the single new event is an `addTracks`), yet the store
entry for the source playlist is unchanged — its `last_updated` keeps
its creation-time value 5 — and no `saveStore` event is emitted, so
nothing is persisted. -/
theorem C6_counterexample :
    (migrate_playlist sampleEnv "sp1" true sampleState).2.events =
      [Event.addTracks "yt1" "v1"] ∧
    (migrate_playlist sampleEnv "sp1" true sampleState).2.store =
      sampleState.store ∧
    storeLookup
      (migrate_playlist sampleEnv "sp1" true sampleState).2.store "sp1" =
      some ⟨"P1", "yt1", 5⟩ := by
  rw [sample_update_run]
  exact ⟨rfl, rfl, rfl⟩

/-!
## Claim C7: the new mapping is persisted before any track is added
-/

/-- What the create path of `migrate_playlist` computes, as one
equation: the create event, then the store write and its save event,
then the track-adding fold. -/
theorem migrate_create_eq (env : Env) (sid : String) (u : Bool)
    (s : MigState) (pl : SpotifyPlaylistData)
    (h1 : storeLookup s.store sid = none)
    (h2 : env.spotifyPlaylist sid = some pl) :
    migrate_playlist env sid u s =
      (some (env.createdId pl.name),
        pl.tracks.foldl (fun st track =>
          match (search_youtube_music track (env.ytSearch track)).toVideoId with
          | some video_id =>
            if video_id ≠ "" then
              { st with events := st.events ++
                  [Event.addTracks (env.createdId pl.name) video_id] }
            else st
          | none => st)
          ⟨storePut s.store sid ⟨pl.name, env.createdId pl.name, s.clock⟩,
           s.events ++ [Event.createPlaylist pl.name (env.createdId pl.name)] ++
             [Event.saveStore (storePut s.store sid
               ⟨pl.name, env.createdId pl.name, s.clock⟩)],
           s.clock + 1⟩) := by
  unfold migrate_playlist migrate_playlist_body
  rw [h1, h2]

/-- Claim C7: on the new-playlist path (source id not in the store) the
new mapping entry `{name, destination id, creation clock}` is written
to the store and the save event carrying it is emitted strictly before
any `addTracks` event: the event trace is `createPlaylist`, then
`saveStore` with the already-written store, then only `addTracks`
events. -/
theorem C7_create_persists_before_adds (env : Env) (sid : String)
    (u : Bool) (s : MigState) (pl : SpotifyPlaylistData)
    (h1 : storeLookup s.store sid = none)
    (h2 : env.spotifyPlaylist sid = some pl) :
    (migrate_playlist env sid u s).1 = some (env.createdId pl.name) ∧
    storeLookup (migrate_playlist env sid u s).2.store sid =
      some ⟨pl.name, env.createdId pl.name, s.clock⟩ ∧
    ∃ adds, (migrate_playlist env sid u s).2.events =
      s.events ++
        Event.createPlaylist pl.name (env.createdId pl.name) ::
        Event.saveStore (storePut s.store sid
          ⟨pl.name, env.createdId pl.name, s.clock⟩) :: adds ∧
      ∀ ev ∈ adds, ∃ vid, ev = Event.addTracks (env.createdId pl.name) vid := by
  rw [migrate_create_eq env sid u s pl h1 h2]
  obtain ⟨delta, hf1, hf2⟩ := create_fold_events env (env.createdId pl.name)
    pl.tracks
    ⟨storePut s.store sid ⟨pl.name, env.createdId pl.name, s.clock⟩,
     s.events ++ [Event.createPlaylist pl.name (env.createdId pl.name)] ++
       [Event.saveStore (storePut s.store sid
         ⟨pl.name, env.createdId pl.name, s.clock⟩)],
     s.clock + 1⟩
  rw [hf1]
  refine ⟨rfl, storeLookup_storePut _ _ _, delta, ?_, hf2⟩
  simp

/-- Witness for claim C7 at the sample environment (a fresh source id,
an empty playlist). -/
theorem C7_witness :
    (migrate_playlist sampleEnvNew "sp9" true sampleState).1 =
      some (sampleEnvNew.createdId "P2") ∧
    storeLookup (migrate_playlist sampleEnvNew "sp9" true sampleState).2.store
      "sp9" = some ⟨"P2", sampleEnvNew.createdId "P2", sampleState.clock⟩ ∧
    ∃ adds, (migrate_playlist sampleEnvNew "sp9" true sampleState).2.events =
      sampleState.events ++
        Event.createPlaylist "P2" (sampleEnvNew.createdId "P2") ::
        Event.saveStore (storePut sampleState.store "sp9"
          ⟨"P2", sampleEnvNew.createdId "P2", sampleState.clock⟩) :: adds ∧
      ∀ ev ∈ adds, ∃ vid,
        ev = Event.addTracks (sampleEnvNew.createdId "P2") vid :=
  C7_create_persists_before_adds sampleEnvNew "sp9" true sampleState
    ⟨"P2", []⟩ (by decide) rfl

/-!
## Claim C8: one failing playlist does not abort the batch
-/

/-- A migration whose source id is unknown and whose fetch raises
returns `None` and leaves the state unchanged (the handler of lines
266-268). -/
theorem migrate_fetch_fail (env : Env) (sid : String) (u : Bool)
    (s : MigState) (hA : storeLookup s.store sid = none)
    (hB : env.spotifyPlaylist sid = none) :
    migrate_playlist env sid u s = (none, s) := by
  unfold migrate_playlist migrate_playlist_body
  rw [hA, hB]

/-- Claim C8: `migrate_all_playlists` migrates every listed playlist in
order; a playlist whose source fetch raises (`FetchError`, modelled by
`spotifyPlaylist = none`) yields `None` and an unchanged state — the
exception is caught inside `migrate_playlist` (lines 266-268) — and the
following playlists are still migrated: the batch equals the sequential
composition over all three playlists, with the failing middle one a
no-op. -/
theorem C8_batch_survives_failure (env : Env) (u : Bool) (s : MigState)
    (p1 p2 p3 : String × String)
    (hlist : env.allPlaylists = [p1, p2, p3])
    (hfail : env.spotifyPlaylist p2.1 = none)
    (hnostore : storeLookup (migrate_playlist env p1.1 u s).2.store p2.1 =
      none) :
    migrate_playlist env p2.1 u (migrate_playlist env p1.1 u s).2 =
      (none, (migrate_playlist env p1.1 u s).2) ∧
    migrate_all_playlists env u s =
      (migrate_playlist env p3.1 u (migrate_playlist env p1.1 u s).2).2 := by
  have hp2 : migrate_playlist env p2.1 u (migrate_playlist env p1.1 u s).2 =
      (none, (migrate_playlist env p1.1 u s).2) :=
    migrate_fetch_fail env p2.1 u _ hnostore hfail
  refine ⟨hp2, ?_⟩
  unfold migrate_all_playlists
  rw [hlist]
  simp only [List.foldl_cons, List.foldl_nil]
  rw [hp2]

/-- Witness for claim C8: three playlists, the middle fetch raises, the
third is still migrated. -/
theorem C8_witness :
    migrate_playlist sampleEnvBatch "b2" false
        (migrate_playlist sampleEnvBatch "b1" false emptyState).2 =
      (none, (migrate_playlist sampleEnvBatch "b1" false emptyState).2) ∧
    migrate_all_playlists sampleEnvBatch false emptyState =
      (migrate_playlist sampleEnvBatch "b3" false
        (migrate_playlist sampleEnvBatch "b1" false emptyState).2).2 :=
  C8_batch_survives_failure sampleEnvBatch false emptyState
    ("b1", "N1") ("b2", "N2") ("b3", "N3") rfl (by decide) (by decide)

/-!
## Claim C10: the snapshot is not extended during an update pass
-/

/-- Claim C10 (implicit): within a single update pass, the set of
already-present destination ids is the snapshot fetched once at the
start and is not extended as tracks are appended; consequently, when
two source tracks of the same call both match the same media id that
was not initially present, `addTracks` is invoked twice with that
id. -/
theorem C10_snapshot_not_extended (env : Env) (pid : String)
    (t1 t2 : Track) (s : MigState) (current : List String) (vid : String)
    (q1 q2 : ℚ)
    (hcur : env.ytPlaylistTracks pid = some current)
    (h1 : search_youtube_music t1 (env.ytSearch t1) = .Accepted vid q1)
    (h2 : search_youtube_music t2 (env.ytSearch t2) = .Accepted vid q2)
    (hvz : vid ≠ "") (hnin : vid ∉ current) :
    (update_youtube_playlist env pid [t1, t2] s).events =
      s.events ++ [Event.addTracks pid vid, Event.addTracks pid vid] := by
  unfold update_youtube_playlist
  rw [hcur]
  simp only [List.foldl_cons, List.foldl_nil]
  rw [h1]
  simp only [MatchResult.toVideoId]
  rw [if_pos ⟨hvz, hnin⟩]
  rw [h2]
  simp only [MatchResult.toVideoId]
  rw [if_pos ⟨hvz, hnin⟩]
  simp

/-- Witness for claim C10: two distinct sample tracks both matching
`v1`, absent from the snapshot: it is added twice. -/
theorem C10_witness :
    (update_youtube_playlist sampleEnv "yt1" [sampleTrack, sampleTrackB]
        sampleState).events =
      sampleState.events ++
        [Event.addTracks "yt1" "v1", Event.addTracks "yt1" "v1"] :=
  C10_snapshot_not_extended sampleEnv "yt1" sampleTrack sampleTrackB
    sampleState [] "v1" 1 1 rfl sample_search sampleB_search
    (by decide) (by simp)

end Offify
